import Mathlib

/-!
# The TLS example clients: connector, transport write-back and session driver

A shallow embedding of `src/examples/tls_client.cpp` and
`src/examples/tls_client_fixed.cpp`.

* The operating system is an explicit script of call results: what
  `getaddrinfo`, `socket`, `connect`, `select`, `recv` and `send` return.
* The Botan engine (`Botan::TLS::Client`) is an external collaborator.  It is a
  record of functions over an abstract engine state; every call reports the
  buffers it passed to `tls_emit_data` and either the next engine state or that
  it threw (a `std::exception`, which is what Botan throws).
* Every call the driver makes is appended to a log, so that "how often" and
  "in which order" are statements about lists.
-/

namespace TlsClient

/-- A byte of network data.  The driver never computes with payload bytes. -/
abbrev Byte := Fin 256

/-- The value of the `EINTR` macro of `<errno.h>` on Linux. -/
def EINTR : Int := 4

/-! ## `connect_tcp` -/

/-- What the operating system answers for one `addrinfo` candidate: the return
value of `::socket` and, consulted only when a socket was created, the return
value of `::connect`. -/
structure Candidate where
  sock : Int
  conn : Int
  deriving DecidableEq, Repr

/-- The system calls issued by `connect_tcp`, with their results. -/
inductive SysCall where
  | getaddrinfo (rc : Int)
  | socket (s : Int)
  | connect (s : Int) (r : Int)
  | close (s : Int)
  | freeaddrinfo
  deriving DecidableEq, Repr

/-- The `for (addrinfo* p = res; p != nullptr; p = p->ai_next)` loop of
`connect_tcp`; returns the final `sockfd` and the calls made. -/
def connect_loop : List Candidate → Int × List SysCall
  | [] => (-1, [])
  | p :: rest =>
    let s := p.sock
    if s = -1 then
      -- `if (s == -1) continue;`
      let r := connect_loop rest
      (r.1, SysCall.socket s :: r.2)
    else if p.conn = 0 then
      -- `sockfd = s; break;`
      (s, [SysCall.socket s, SysCall.connect s p.conn])
    else
      -- `::close(s);`
      let r := connect_loop rest
      (r.1, SysCall.socket s :: SysCall.connect s p.conn :: SysCall.close s :: r.2)

/-- The function `connect_tcp(host, port)`: `rc` is the return value of
`getaddrinfo` and `res` the candidate list it produced. -/
def connect_tcp (rc : Int) (res : List Candidate) : Int × List SysCall :=
  if rc ≠ 0 then
    (-1, [SysCall.getaddrinfo rc])
  else
    let r := connect_loop res
    -- `if (sockfd == -1) return -1; return sockfd;`
    (if r.1 = -1 then -1 else r.1,
      SysCall.getaddrinfo rc :: (r.2 ++ [SysCall.freeaddrinfo]))

/-- A candidate on which `connect_tcp` succeeds: a socket was created and
`::connect` returned 0. -/
def Candidate.succeeds (p : Candidate) : Bool :=
  decide (p.sock ≠ -1) && decide (p.conn = 0)

/-- The sockets a call log created (every `::socket` result other than -1). -/
def createdSockets : List SysCall → List Int
  | [] => []
  | SysCall.socket s :: l => if s = -1 then createdSockets l else s :: createdSockets l
  | _ :: l => createdSockets l

/-- The sockets a call log closed, in order. -/
def closedSockets : List SysCall → List Int
  | [] => []
  | SysCall.close s :: l => s :: closedSockets l
  | _ :: l => closedSockets l

/-- The number of `::socket` calls in a log, that is the number of candidates
attempted. -/
def socketCalls : List SysCall → Nat
  | [] => 0
  | SysCall.socket _ :: l => socketCalls l + 1
  | _ :: l => socketCalls l

/-! ## `Callbacks::tls_emit_data` -/

/-- The result of one `::send(m_fd, p, remaining, 0)`: the non-negative count it
returned, or -1 together with `errno`. -/
inductive SendRes where
  | ok (n : Nat)
  | fail (errno : Int)
  deriving DecidableEq, Repr

/-- How a run of the write loop ended. -/
inductive EmitStatus where
  /-- The counter `remaining` reached 0: the `while` condition failed. -/
  | done
  /-- The `std::perror("send"); break;` after a failure other than `EINTR`. -/
  | failed
  /-- The loop is inside `::send` again and the script has no further result. -/
  | pending
  deriving DecidableEq, Repr

/-- The outcome of the write loop: how it ended, the bytes the successful sends
accepted (in order), and the unused rest of the script. -/
structure EmitResult where
  status : EmitStatus
  wire : List Byte
  rest : List SendRes
  deriving DecidableEq, Repr

/-- The `while (remaining > 0)` loop of `tls_emit_data`.  `p` is the offset of
the cursor into `data`, `remaining` the `size_t` counter, `wire` the bytes
accepted so far. -/
def emit_loop (data : List Byte) : List SendRes → Nat → Nat → List Byte → EmitResult
  | rs, _, 0, wire => ⟨EmitStatus.done, wire, rs⟩
  | [], _, _ + 1, wire => ⟨EmitStatus.pending, wire, []⟩
  | SendRes.fail errno :: rs, p, remaining + 1, wire =>
    if errno = EINTR then
      emit_loop data rs p (remaining + 1) wire
    else
      ⟨EmitStatus.failed, wire, rs⟩
  | SendRes.ok sent :: rs, p, remaining + 1, wire =>
    -- `p += sent; remaining -= static_cast<size_t>(sent);`
    emit_loop data rs (p + sent) ((remaining + 1 + 2 ^ 64 - sent % 2 ^ 64) % 2 ^ 64)
      (wire ++ (data.drop p).take sent)

/-- The callback `tls_emit_data(data)` run against a script of `::send`
results. -/
def tls_emit_data (rs : List SendRes) (data : List Byte) : EmitResult :=
  emit_loop data rs 0 data.length []

/-! ## The engine and the readiness events -/

/-- What a call into the engine did: the buffers it handed to `tls_emit_data`
(in order, before it returned or threw) and the engine state it left, `none`
when the call threw. -/
structure EngRes (σ : Type) where
  out : List (List Byte)
  next : Option σ

/-- The surface of `Botan::TLS::Client` the driver uses.  `init` is the
construction of the client (which emits the ClientHello) together with the
other statements of the `try` block before the loop. -/
structure Engine (σ : Type) where
  init : EngRes σ
  is_closed : σ → Bool
  is_active : σ → Bool
  received_data : σ → List Byte → EngRes σ
  send : σ → String → EngRes σ
  close : σ → EngRes σ

/-- The result of `::recv`: the bytes read (`got` is their number, so the empty
list is `got == 0`), or -1 together with `errno`. -/
inductive RecvRes where
  | got (bytes : List Byte)
  | err (errno : Int)
  deriving DecidableEq, Repr

/-- What the operating system answers during one iteration of the loop. -/
inductive Event where
  /-- The call `select` returned a negative value, with this `errno`. -/
  | select_err (errno : Int)
  /-- The call `select` returned 0. -/
  | timeout
  /-- The call `select` returned a positive value and `FD_ISSET(sock, &readfds)` is
  false. -/
  | not_set
  /-- The call `select` returned a positive value, the socket is readable, and `recv`
  returned this. -/
  | readable (r : RecvRes)
  deriving DecidableEq, Repr

/-- The two programs. -/
inductive Variant where
  /-- The program `tls_client.cpp`. -/
  | plain
  /-- The program `tls_client_fixed.cpp`. -/
  | fixed
  deriving DecidableEq, Repr

/-- The calls the driver makes, in the order it makes them. -/
inductive Act where
  /-- The call `::recv` returned; `got` is the value it returned (-1 for an error). -/
  | recv (got : Int)
  /-- The call `client.is_active()` was made and returned this. -/
  | is_active (r : Bool)
  /-- The call `client.received_data(...)` was made with these bytes. -/
  | received_data (bytes : List Byte)
  /-- The call `client.send(...)` was made with this request. -/
  | send (req : String)
  /-- The call `client.close()` was made. -/
  | close
  /-- The engine called `tls_emit_data` with this buffer. -/
  | emit (data : List Byte)
  /-- The call `::close(sock)` was made. -/
  | sock_close
  deriving DecidableEq, Repr

/-- The local variables of `main` the loop works on, with the call log. -/
structure Cfg (σ : Type) where
  eng : σ
  request_sent : Bool
  peer_closed : Bool
  timeout_count : Nat
  log : List Act

/-- The constant `max_timeouts` of `tls_client_fixed.cpp`. -/
def max_timeouts : Nat := 10

/-- The request text `req` built from `host`. -/
def http_request (v : Variant) (host : String) : String :=
  match v with
  | Variant.plain =>
    "GET / HTTP/1.1\r\n" ++ "Host: " ++ host ++ "\r\n" ++
    "User-Agent: botan-tls-example/1.0\r\n" ++ "Accept: */*\r\n" ++
    "Connection: close\r\n" ++ "\r\n"
  | Variant.fixed =>
    "GET /get HTTP/1.1\r\n" ++ "Host: " ++ host ++ "\r\n" ++
    "User-Agent: botan-tls-example/1.0\r\n" ++ "Accept: */*\r\n" ++
    "Connection: close\r\n" ++ "\r\n"

/-- The log entries of the `tls_emit_data` calls an engine call made. -/
def emits (out : List (List Byte)) : List Act :=
  out.map Act.emit

/-- How one pass through the loop body left it. -/
inductive Flow (σ : Type) where
  /-- The end of the body or a `continue`: the loop condition is tested next. -/
  | next (c : Cfg σ)
  /-- A `break`. -/
  | brk (c : Cfg σ)
  /-- An exception left the loop. -/
  | thrown (c : Cfg σ)

/-- The statements `client.send(req...); request_sent = true;`. -/
def do_send {σ : Type} (E : Engine σ) (req : String) (c : Cfg σ) : Flow σ :=
  let r := E.send c.eng req
  let log := c.log ++ [Act.send req] ++ emits r.out
  match r.next with
  | none => Flow.thrown { c with log := log }
  | some e => Flow.next { c with eng := e, request_sent := true, log := log }

/-- The statement `if (!request_sent && client.is_active()) { ... }` that ends
the loop body. -/
def deferred_send {σ : Type} (E : Engine σ) (req : String) (c : Cfg σ) : Flow σ :=
  if c.request_sent then
    Flow.next c
  else
    let a := E.is_active c.eng
    let c1 := { c with log := c.log ++ [Act.is_active a] }
    if a then do_send E req c1 else Flow.next c1

/-- One pass through the body of the `while` loop of `main`, entered with the
loop condition true. -/
def body {σ : Type} (v : Variant) (E : Engine σ) (host : String) (ev : Event) (c : Cfg σ) :
    Flow σ :=
  let req := http_request v host
  match ev with
  | Event.select_err errno =>
    -- `if (errno == EINTR) continue; std::perror("select"); break;`
    if errno = EINTR then Flow.next c else Flow.brk c
  | Event.timeout =>
    match v with
    | Variant.plain => deferred_send E req c
    | Variant.fixed =>
      -- `timeout_count++; if (client.is_active() && !request_sent) {...} continue;`
      let c1 := { c with timeout_count := c.timeout_count + 1 }
      let a := E.is_active c1.eng
      let c2 := { c1 with log := c1.log ++ [Act.is_active a] }
      if a && !c2.request_sent then do_send E req c2 else Flow.next c2
  | Event.not_set => deferred_send E req c
  | Event.readable (RecvRes.got []) =>
    -- `peer_closed = true; client.close(); break;`
    let c1 := { c with peer_closed := true, log := c.log ++ [Act.recv 0] }
    let k := E.close c1.eng
    let log := c1.log ++ [Act.close] ++ emits k.out
    match k.next with
    | none => Flow.thrown { c1 with log := log }
    | some e => Flow.brk { c1 with eng := e, log := log }
  | Event.readable (RecvRes.got (b :: bs)) =>
    let c1 := { c with log := c.log ++ [Act.recv ((b :: bs).length : Nat)] }
    let k := E.received_data c1.eng (b :: bs)
    let log := c1.log ++ [Act.received_data (b :: bs)] ++ emits k.out
    match k.next with
    | none => Flow.thrown { c1 with log := log }
    | some e =>
      match v with
      | Variant.plain => deferred_send E req { c1 with eng := e, log := log }
      | Variant.fixed =>
        -- `timeout_count = 0;`
        deferred_send E req { c1 with eng := e, timeout_count := 0, log := log }
  | Event.readable (RecvRes.err errno) =>
    let c1 := { c with log := c.log ++ [Act.recv (-1)] }
    -- `if (errno == EINTR) continue; std::perror("recv"); break;`
    if errno = EINTR then Flow.next c1 else Flow.brk c1

/-- The loop condition: `!client.is_closed()`, in the fixed program
`!client.is_closed() && timeout_count < max_timeouts`. -/
def guard {σ : Type} (v : Variant) (E : Engine σ) (c : Cfg σ) : Bool :=
  match v with
  | Variant.plain => !E.is_closed c.eng
  | Variant.fixed => !E.is_closed c.eng && decide (c.timeout_count < max_timeouts)

/-- How the `while` loop ended on a script of events. -/
inductive LoopEnd (σ : Type) where
  /-- The loop condition failed or a `break` was taken. -/
  | exited (c : Cfg σ)
  /-- An exception left the loop. -/
  | thrown (c : Cfg σ)
  /-- The loop is inside `select` again and the script has no further event. -/
  | waiting (c : Cfg σ)

/-- The `while` loop of `main` run against a script of events. -/
def loop {σ : Type} (v : Variant) (E : Engine σ) (host : String) :
    List Event → Cfg σ → LoopEnd σ
  | [], c => if guard v E c then LoopEnd.waiting c else LoopEnd.exited c
  | ev :: rest, c =>
    if guard v E c then
      match body v E host ev c with
      | Flow.next c1 => loop v E host rest c1
      | Flow.brk c1 => LoopEnd.exited c1
      | Flow.thrown c1 => LoopEnd.thrown c1
    else LoopEnd.exited c

/-- The outcome of the `try` block of `main`: the exit code (`none` while the
program is still waiting in `select`), the engine state (`none` when the last
engine call threw), the two flags and the call log. -/
structure Result (σ : Type) where
  code : Option Nat
  eng : Option σ
  request_sent : Bool
  peer_closed : Bool
  log : List Act

/-- The statements after the loop: the guarded, exception-swallowing
`client.close()`, then `::close(sock); return 0;`. -/
def teardown {σ : Type} (E : Engine σ) (c : Cfg σ) : Result σ :=
  if c.peer_closed then
    { code := some 0, eng := some c.eng, request_sent := c.request_sent,
      peer_closed := c.peer_closed, log := c.log ++ [Act.sock_close] }
  else
    -- `try { client.close(); } catch (...) { }`
    let k := E.close c.eng
    { code := some 0, eng := k.next, request_sent := c.request_sent,
      peer_closed := c.peer_closed,
      log := c.log ++ [Act.close] ++ emits k.out ++ [Act.sock_close] }

/-- The handler `catch (const std::exception& e) { ...; ::close(sock); return 2; }`. -/
def handler {σ : Type} (request_sent peer_closed : Bool) (log : List Act) : Result σ :=
  { code := some 2, eng := none, request_sent := request_sent, peer_closed := peer_closed,
    log := log ++ [Act.sock_close] }

/-- The loop followed by what `main` does once it has ended. -/
def drive {σ : Type} (v : Variant) (E : Engine σ) (host : String) (evs : List Event)
    (c : Cfg σ) : Result σ :=
  match loop v E host evs c with
  | LoopEnd.exited c1 => teardown E c1
  | LoopEnd.thrown c1 => handler c1.request_sent c1.peer_closed c1.log
  | LoopEnd.waiting c1 =>
    { code := none, eng := some c1.eng, request_sent := c1.request_sent,
      peer_closed := c1.peer_closed, log := c1.log }

/-- The variables of `main` when the loop is first reached, the engine having
been constructed in state `e`. -/
def start {σ : Type} (E : Engine σ) (e : σ) : Cfg σ :=
  { eng := e, request_sent := false, peer_closed := false, timeout_count := 0,
    log := emits E.init.out }

/-- The `try` block of `main` and its handler, entered with a connected
socket. -/
def session {σ : Type} (v : Variant) (E : Engine σ) (host : String) (evs : List Event) :
    Result σ :=
  match E.init.next with
  | none => handler false false (emits E.init.out)
  | some e => drive v E host evs (start E e)

/-- The outcome of `main`: the exit code, the system calls of `connect_tcp` and,
when it returned a socket, the call log of the session. -/
structure MainResult where
  code : Option Nat
  sys : List SysCall
  log : List Act

/-- The function `main`. -/
def main {σ : Type} (v : Variant) (E : Engine σ) (host : String)
    (rc : Int) (res : List Candidate) (evs : List Event) : MainResult :=
  let k := connect_tcp rc res
  -- `if (sock < 0) return 1;`
  if k.1 < 0 then
    { code := some 1, sys := k.2, log := [] }
  else
    let r := session v E host evs
    { code := r.code, sys := k.2, log := r.log }

/-! ## A small engine to run the programs on -/

/-- The state of the sample engine: the number of bytes it has been fed. -/
abbrev DemoState := Nat

/-- A sample engine.  It counts the bytes fed to it; it is active once it has
seen `activeAt` bytes and closed once it has seen `closedAt` bytes (an active
engine is not closed).  It echoes every byte it is fed in a buffer of its own,
emits the request length when asked to send, and `closeThrows` says whether
`close()` throws. -/
def demo (activeAt closedAt : Nat) (closeThrows : Bool) : Engine DemoState :=
  { init := { out := [[22]], next := some 0 }
    is_closed := fun n => decide (closedAt ≤ n)
    is_active := fun n => decide (activeAt ≤ n) && !decide (closedAt ≤ n)
    received_data := fun n bytes =>
      { out := bytes.map (fun b => [b]), next := some (n + bytes.length) }
    send := fun n req => { out := [[23, Fin.ofNat req.length]], next := some n }
    close := fun n =>
      if closeThrows then { out := [], next := none }
      else { out := [[21]], next := some n } }

/-! ## Predicates on scripts and logs used to state the theorems -/

/-- Every successful `::send` of the script returns a count between 1 and the
bytes remaining at that call, for a write loop entered with `remaining` bytes
to go.  Results the loop never asks for (after it has finished or stopped on a
failure other than `EINTR`) are not constrained. -/
def countsInRange : List SendRes → Nat → Bool
  | [], _ => true
  | _ :: _, 0 => true
  | SendRes.ok n :: rs, remaining + 1 =>
    decide (1 ≤ n) && decide (n ≤ remaining + 1) && countsInRange rs (remaining + 1 - n)
  | SendRes.fail errno :: rs, remaining + 1 =>
    if errno = EINTR then countsInRange rs (remaining + 1) else true

/-- Every failure of the script is an interrupt. -/
def onlyInterrupts (rs : List SendRes) : Bool :=
  rs.all (fun r => match r with
    | SendRes.ok _ => true
    | SendRes.fail errno => decide (errno = EINTR))

/-- The number of bytes the successful results of a script accept in total. -/
def offered : List SendRes → Nat
  | [] => 0
  | SendRes.ok n :: rs => n + offered rs
  | SendRes.fail _ :: rs => offered rs

/-- Is this log entry a call of `client.send`? -/
def Act.isSend : Act → Bool
  | Act.send _ => true
  | _ => false

/-- The number of `client.send` calls in a log. -/
def sendCount (log : List Act) : Nat :=
  log.countP Act.isSend

/-- A property of a pass through the loop body, by the way the pass ended. -/
def Flow.sat {σ : Type} (f : Flow σ) (J B T : Cfg σ → Prop) : Prop :=
  match f with
  | Flow.next c => J c
  | Flow.brk c => B c
  | Flow.thrown c => T c

/-- A property of a run of the loop, by the way the run ended. -/
def LoopEnd.sat {σ : Type} (r : LoopEnd σ) (J B T : Cfg σ → Prop) : Prop :=
  match r with
  | LoopEnd.waiting c => J c
  | LoopEnd.exited c => B c
  | LoopEnd.thrown c => T c

/-- The loop invariant behind C1: while `request_sent` is false no send has been
made and `is_active()` has never answered true; once it is true exactly one
send has been made. -/
def sentOnce {σ : Type} (c : Cfg σ) : Prop :=
  (c.request_sent = false ∧ sendCount c.log = 0 ∧ Act.is_active true ∉ c.log) ∨
    (c.request_sent = true ∧ sendCount c.log = 1)

/-- What C1 says of a log: at most one send, and exactly one as soon as
`is_active()` has answered true. -/
def onceIfActive (log : List Act) : Prop :=
  sendCount log ≤ 1 ∧ (Act.is_active true ∈ log → sendCount log = 1)

/-- The variables a run of the loop ended with. -/
def LoopEnd.cfg {σ : Type} : LoopEnd σ → Cfg σ
  | LoopEnd.waiting c => c
  | LoopEnd.exited c => c
  | LoopEnd.thrown c => c

/-- The loop invariant once the request has gone out: `request_sent` is true
and exactly one send has been made. -/
def sentAlready {σ : Type} (c : Cfg σ) : Prop :=
  c.request_sent = true ∧ sendCount c.log = 1

/-- Every `client.send` call of a log comes directly after a
`client.is_active()` call that answered true. -/
def sendsGuarded (log : List Act) : Prop :=
  ∀ (pre post : List Act) (req : String), log = pre ++ Act.send req :: post →
    ∃ pre1, pre = pre1 ++ [Act.is_active true]

/-- The loop invariant behind C9: the peer has not closed, `recv` has never
returned 0 and `client.close()` has not been called. -/
def peerOpen {σ : Type} (c : Cfg σ) : Prop :=
  c.peer_closed = false ∧ Act.recv 0 ∉ c.log ∧ Act.close ∉ c.log

/-- The state in which the end-of-stream branch leaves the loop: `peer_closed`
is set and the log ends with the `recv` that returned 0, one `client.close()`
call and what that call emitted. -/
def peerClosed {σ : Type} (c : Cfg σ) : Prop :=
  c.peer_closed = true ∧
    ∃ pre out, c.log = pre ++ [Act.recv 0, Act.close] ++ emits out ∧
      Act.close ∉ pre ∧ Act.recv 0 ∉ pre

/-- One engine call followed by another: the buffers of both in order, and the
second call only when the first did not throw. -/
def EngRes.andThen {σ : Type} (r : EngRes σ) (f : σ → EngRes σ) : EngRes σ :=
  match r.next with
  | none => r
  | some s => { out := r.out ++ (f s).out, next := (f s).next }

/-- The feed of the engine does not depend on how the bytes are split: feeding
`a ++ b` at once does what feeding `a` and then `b` does. -/
def feedSplitIndependent {σ : Type} (E : Engine σ) : Prop :=
  ∀ (s : σ) (a b : List Byte), a ≠ [] → b ≠ [] →
    E.received_data s (a ++ b) =
      (E.received_data s a).andThen (fun s1 => E.received_data s1 b)

/-- The events of a byte stream arriving in these chunks, one `recv` each. -/
def reads (chunks : List (List Byte)) : List Event :=
  chunks.map (fun ch => Event.readable (RecvRes.got ch))

/-- Is this log entry outbound: a buffer handed to `tls_emit_data`, or the
application payload handed to the engine? -/
def Act.isOutbound : Act → Bool
  | Act.emit _ => true
  | Act.send _ => true
  | _ => false

/-- The outbound part of a log, in order. -/
def outbound (log : List Act) : List Act :=
  log.filter Act.isOutbound

/-- The engine, started in state `e` and fed these chunks one by one, is neither
active nor closed at any boundary between two chunks. -/
def quietSplit {σ : Type} (E : Engine σ) : σ → List (List Byte) → Prop
  | _, [] => True
  | _, [_] => True
  | e, ch :: ch2 :: rest =>
    match (E.received_data e ch).next with
    | none => True
    | some s => E.is_active s = false ∧ E.is_closed s = false ∧ quietSplit E s (ch2 :: rest)

/-- Two outcomes agree in exit code, engine state, `request_sent`, `peer_closed`
and the outbound part of the log. -/
def Result.same {σ : Type} (r1 r2 : Result σ) : Prop :=
  r1.code = r2.code ∧ r1.eng = r2.eng ∧ r1.request_sent = r2.request_sent ∧
    r1.peer_closed = r2.peer_closed ∧ outbound r1.log = outbound r2.log

/-- Two loop states agree in everything but the inbound part of the log. -/
def Cfg.same {σ : Type} (c d : Cfg σ) : Prop :=
  c.eng = d.eng ∧ c.request_sent = d.request_sent ∧ c.peer_closed = d.peer_closed ∧
    c.timeout_count = d.timeout_count ∧ outbound c.log = outbound d.log

/-- Two loop states agree in the flags and the outbound part of the log. -/
def Cfg.sameOut {σ : Type} (c d : Cfg σ) : Prop :=
  c.request_sent = d.request_sent ∧ c.peer_closed = d.peer_closed ∧
    outbound c.log = outbound d.log

/-- Two passes through the loop body end the same way in agreeing states. -/
def Flow.same {σ : Type} : Flow σ → Flow σ → Prop
  | Flow.next c, Flow.next d => c.same d
  | Flow.brk c, Flow.brk d => c.same d
  | Flow.thrown c, Flow.thrown d => c.sameOut d
  | _, _ => False

/-- Two runs of the loop end the same way in agreeing states. -/
def LoopEnd.same {σ : Type} : LoopEnd σ → LoopEnd σ → Prop
  | LoopEnd.waiting c, LoopEnd.waiting d => c.same d
  | LoopEnd.exited c, LoopEnd.exited d => c.same d
  | LoopEnd.thrown c, LoopEnd.thrown d => c.sameOut d
  | _, _ => False

/-- What `main` does once the loop has ended. -/
def finish {σ : Type} (E : Engine σ) : LoopEnd σ → Result σ
  | LoopEnd.exited c1 => teardown E c1
  | LoopEnd.thrown c1 => handler c1.request_sent c1.peer_closed c1.log
  | LoopEnd.waiting c1 =>
    { code := none, eng := some c1.eng, request_sent := c1.request_sent,
      peer_closed := c1.peer_closed, log := c1.log }

/-- A call into the engine that changes its state, as the driver issues it:
`received_data` with its bytes, `send`, `close`. -/
inductive EngCall where
  | received_data (bytes : List Byte)
  | send
  | close
  deriving DecidableEq, Repr

/-- The sequence of engine calls (`received_data`, `send`, `close`) of a log. -/
def engineCalls : List Act → List EngCall
  | [] => []
  | Act.received_data bytes :: l => EngCall.received_data bytes :: engineCalls l
  | Act.send _ :: l => EngCall.send :: engineCalls l
  | Act.close :: l => EngCall.close :: engineCalls l
  | _ :: l => engineCalls l

/-- The variables a pass through the loop body ended with. -/
def Flow.cfg {σ : Type} : Flow σ → Cfg σ
  | Flow.next c => c
  | Flow.brk c => c
  | Flow.thrown c => c

/-- The value of `timeout_count` in the fixed program after a pass on this event
that goes on to the loop condition: a timeout adds one, a read of data resets
it, nothing else changes it. -/
def timeoutsAfter (k : Nat) (ev : Event) : Nat :=
  match ev with
  | Event.timeout => k + 1
  | Event.readable (RecvRes.got (_ :: _)) => 0
  | _ => k

/-- The script never brings the timeout counter of the fixed program, started at
`k`, up to `max_timeouts`: it holds fewer than `max_timeouts` timeouts in a
row (between two reads of data). -/
def withinBudget : Nat → List Event → Bool
  | k, [] => decide (k < max_timeouts)
  | k, ev :: rest => decide (k < max_timeouts) && withinBudget (timeoutsAfter k ev) rest

/-- Two loop states, one of each program, agree in the engine state, the flags
and the engine calls made. -/
def Cfg.alike {σ : Type} (c d : Cfg σ) : Prop :=
  c.eng = d.eng ∧ c.request_sent = d.request_sent ∧ c.peer_closed = d.peer_closed ∧
    engineCalls c.log = engineCalls d.log

/-- Two passes through the loop body, one of each program, end the same way in
agreeing states, the fixed program's timeout counter being `k` when the pass
goes on to the loop condition. -/
def Flow.alike {σ : Type} (k : Nat) : Flow σ → Flow σ → Prop
  | Flow.next c, Flow.next d => c.alike d ∧ d.timeout_count = k
  | Flow.brk c, Flow.brk d => c.alike d
  | Flow.thrown c, Flow.thrown d => c.alike d
  | _, _ => False

/-- Two runs of the loop, one of each program, end the same way in agreeing
states. -/
def LoopEnd.alike {σ : Type} : LoopEnd σ → LoopEnd σ → Prop
  | LoopEnd.waiting c, LoopEnd.waiting d => c.alike d
  | LoopEnd.exited c, LoopEnd.exited d => c.alike d
  | LoopEnd.thrown c, LoopEnd.thrown d => c.alike d
  | _, _ => False

/-- Two outcomes, one of each program, agree in exit code, engine state,
`request_sent`, `peer_closed` and the engine calls made. -/
def Result.alike {σ : Type} (r1 r2 : Result σ) : Prop :=
  r1.code = r2.code ∧ r1.eng = r2.eng ∧ r1.request_sent = r2.request_sent ∧
    r1.peer_closed = r2.peer_closed ∧ engineCalls r1.log = engineCalls r2.log

/-- What the engine is left in by `send` does not depend on which of the two
request texts (`GET /` or `GET /get`) it is given. -/
def sendIgnoresText {σ : Type} (E : Engine σ) (host : String) : Prop :=
  ∀ s : σ, (E.send s (http_request Variant.plain host)).next =
    (E.send s (http_request Variant.fixed host)).next

/-! ## Theorems: `connect_tcp` -/

theorem connect_loop_all_fail (res : List Candidate)
    (h : ∀ a ∈ res, a.succeeds = false) :
    (connect_loop res).1 = -1 ∧
      closedSockets (connect_loop res).2 = createdSockets (connect_loop res).2 ∧
      closedSockets (connect_loop res).2 = (res.filter (fun a => decide (a.sock ≠ -1))).map (·.sock) ∧
      socketCalls (connect_loop res).2 = res.length := by
  induction res with
  | nil => simp [connect_loop, closedSockets, createdSockets, socketCalls]
  | cons a rest ih =>
    have ha : a.succeeds = false := h a (List.mem_cons_self _ _)
    have hr := ih (fun b hb => h b (List.mem_cons_of_mem _ hb))
    obtain ⟨h1, h2, h3, h4⟩ := hr
    by_cases hs : a.sock = -1
    · simp [connect_loop, hs, closedSockets, createdSockets, socketCalls, h1, h2, h3, h4]
      rw [← h2]
      simpa using h3
    · have hc : a.conn ≠ 0 := by
        intro hc
        simp [Candidate.succeeds, hs, hc] at ha
      simp [connect_loop, hs, hc, closedSockets, createdSockets, socketCalls, h1, h2, h3, h4]
      rw [← h2]
      simpa using h3

theorem connect_loop_first_success (pre : List Candidate) (c : Candidate) (post : List Candidate)
    (hpre : ∀ a ∈ pre, a.succeeds = false) (hc : c.succeeds = true) :
    (connect_loop (pre ++ c :: post)).1 = c.sock ∧
      closedSockets (connect_loop (pre ++ c :: post)).2 =
        (pre.filter (fun a => decide (a.sock ≠ -1))).map (·.sock) ∧
      createdSockets (connect_loop (pre ++ c :: post)).2 =
        closedSockets (connect_loop (pre ++ c :: post)).2 ++ [c.sock] ∧
      socketCalls (connect_loop (pre ++ c :: post)).2 = pre.length + 1 := by
  have hcs : c.sock ≠ -1 ∧ c.conn = 0 := by
    simpa [Candidate.succeeds] using hc
  induction pre with
  | nil =>
    simp [connect_loop, hcs.1, hcs.2, closedSockets, createdSockets, socketCalls]
  | cons a rest ih =>
    have ha : a.succeeds = false := hpre a (List.mem_cons_self _ _)
    obtain ⟨h1, h2, h3, h4⟩ := ih (fun b hb => hpre b (List.mem_cons_of_mem _ hb))
    by_cases hs : a.sock = -1
    · simp [connect_loop, hs, closedSockets, createdSockets, socketCalls, h1, h2, h3, h4]
    · have hc : a.conn ≠ 0 := by
        intro hc
        simp [Candidate.succeeds, hs, hc] at ha
      simp [connect_loop, hs, hc, closedSockets, createdSockets, socketCalls, h1, h2, h3, h4]

/-- C7: `connect_tcp` returns the socket of the first candidate, in resolver
order, on which both `::socket` and `::connect` succeed; it has closed exactly
the sockets it created for the earlier candidates, so the returned socket is
the only one left open, and it made one `::socket` call per candidate up to
that one and none for a later one.  When `getaddrinfo` fails it returns -1
without creating a socket, and when every candidate fails it returns -1 having
closed every socket it created.  For candidates `[A, B]` where A's connect
fails and B succeeds it returns B's socket and has closed A's. -/
theorem connect_tcp_first_success :
    (∀ (pre : List Candidate) (c : Candidate) (post : List Candidate),
      (∀ a ∈ pre, a.succeeds = false) → c.succeeds = true →
        (connect_tcp 0 (pre ++ c :: post)).1 = c.sock ∧
        closedSockets (connect_tcp 0 (pre ++ c :: post)).2 =
          (pre.filter (fun a => decide (a.sock ≠ -1))).map (·.sock) ∧
        createdSockets (connect_tcp 0 (pre ++ c :: post)).2 =
          closedSockets (connect_tcp 0 (pre ++ c :: post)).2 ++ [c.sock] ∧
        socketCalls (connect_tcp 0 (pre ++ c :: post)).2 = pre.length + 1) ∧
    (∀ (rc : Int) (res : List Candidate), rc ≠ 0 →
        connect_tcp rc res = (-1, [SysCall.getaddrinfo rc])) ∧
    (∀ (res : List Candidate), (∀ a ∈ res, a.succeeds = false) →
        (connect_tcp 0 res).1 = -1 ∧
        closedSockets (connect_tcp 0 res).2 = createdSockets (connect_tcp 0 res).2 ∧
        socketCalls (connect_tcp 0 res).2 = res.length) ∧
    (∀ (A B : Candidate), A.sock ≠ -1 → A.conn ≠ 0 → B.succeeds = true →
        (connect_tcp 0 [A, B]).1 = B.sock ∧
        closedSockets (connect_tcp 0 [A, B]).2 = [A.sock]) := by
  have sysClosed : ∀ l : List SysCall,
      closedSockets (SysCall.getaddrinfo 0 :: (l ++ [SysCall.freeaddrinfo])) = closedSockets l := by
    intro l
    induction l with
    | nil => simp [closedSockets]
    | cons x l ih =>
      cases x <;> simp_all [closedSockets]
  have sysCreated : ∀ l : List SysCall,
      createdSockets (SysCall.getaddrinfo 0 :: (l ++ [SysCall.freeaddrinfo])) = createdSockets l := by
    intro l
    induction l with
    | nil => simp [createdSockets]
    | cons x l ih =>
      cases x <;> simp_all [createdSockets]
  have sysCalls : ∀ l : List SysCall,
      socketCalls (SysCall.getaddrinfo 0 :: (l ++ [SysCall.freeaddrinfo])) = socketCalls l := by
    intro l
    induction l with
    | nil => simp [socketCalls]
    | cons x l ih =>
      cases x <;> simp_all [socketCalls]
  have first : ∀ (pre : List Candidate) (c : Candidate) (post : List Candidate),
      (∀ a ∈ pre, a.succeeds = false) → c.succeeds = true →
        (connect_tcp 0 (pre ++ c :: post)).1 = c.sock ∧
        closedSockets (connect_tcp 0 (pre ++ c :: post)).2 =
          (pre.filter (fun a => decide (a.sock ≠ -1))).map (·.sock) ∧
        createdSockets (connect_tcp 0 (pre ++ c :: post)).2 =
          closedSockets (connect_tcp 0 (pre ++ c :: post)).2 ++ [c.sock] ∧
        socketCalls (connect_tcp 0 (pre ++ c :: post)).2 = pre.length + 1 := by
    intro pre c post hpre hc
    obtain ⟨h1, h2, h3, h4⟩ := connect_loop_first_success pre c post hpre hc
    have hcs : c.sock ≠ -1 := by
      have : c.sock ≠ -1 ∧ c.conn = 0 := by simpa [Candidate.succeeds] using hc
      exact this.1
    simp only [connect_tcp, ne_eq, not_true_eq_false, if_false, sysClosed, sysCreated, sysCalls]
    refine ⟨?_, h2, h3, h4⟩
    rw [h1]
    simp [hcs]
  refine ⟨first, ?_, ?_, ?_⟩
  · intro rc res hrc
    simp [connect_tcp, hrc]
  · intro res hres
    obtain ⟨h1, h2, _, h4⟩ := connect_loop_all_fail res hres
    simp only [connect_tcp, ne_eq, not_true_eq_false, if_false, sysClosed, sysCreated, sysCalls]
    exact ⟨by simp [h1], h2, h4⟩
  · intro A B hA hA2 hB
    have hAf : ∀ a ∈ [A], a.succeeds = false := by
      intro a ha
      simp only [List.mem_singleton] at ha
      subst ha
      simp [Candidate.succeeds, hA, hA2]
    obtain ⟨h1, h2, _, _⟩ := first [A] B [] hAf hB
    refine ⟨by simpa using h1, ?_⟩
    have : closedSockets (connect_tcp 0 ([A] ++ B :: [])).2 = [A.sock] := by
      rw [h2]
      simp [hA]
    simpa using this

/-- C7 at a concrete resolver answer: the first candidate gets no socket, the
second gets socket 3 and its connect fails, the third gets socket 3 again and
connects, a fourth is never tried. -/
theorem connect_tcp_first_success_witness :
    (connect_tcp 0 ([⟨-1, 0⟩, ⟨3, -1⟩] ++ ⟨3, 0⟩ :: [⟨4, 0⟩])).1 = 3 ∧
      closedSockets (connect_tcp 0 ([⟨-1, 0⟩, ⟨3, -1⟩] ++ ⟨3, 0⟩ :: [⟨4, 0⟩])).2 = [3] ∧
      socketCalls (connect_tcp 0 ([⟨-1, 0⟩, ⟨3, -1⟩] ++ ⟨3, 0⟩ :: [⟨4, 0⟩])).2 = 3 := by
  obtain ⟨h1, h2, _, h4⟩ :=
    connect_tcp_first_success.1 [⟨-1, 0⟩, ⟨3, -1⟩] ⟨3, 0⟩ [⟨4, 0⟩] (by decide) (by decide)
  exact ⟨h1, by rw [h2]; decide, by rw [h4]; rfl⟩

/-! ## Theorems: `tls_emit_data` -/

/-- The write loop keeps the accepted bytes equal to the part of the buffer
before the cursor. -/
theorem emit_loop_wire (data : List Byte) :
    ∀ (rs : List SendRes) (p remaining : Nat) (wire : List Byte),
      p + remaining = data.length → remaining < 2 ^ 64 → wire = data.take p →
      countsInRange rs remaining = true →
      ∃ q, p ≤ q ∧ q ≤ data.length ∧ (emit_loop data rs p remaining wire).wire = data.take q ∧
        ((emit_loop data rs p remaining wire).status = EmitStatus.done ↔ q = data.length) := by
  intro rs
  induction rs with
  | nil =>
    intro p remaining wire hp _ hw _
    cases remaining with
    | zero => exact ⟨p, le_refl _, by omega, by simp [emit_loop, hw], by simp [emit_loop]; omega⟩
    | succ r => exact ⟨p, le_refl _, by omega, by simp [emit_loop, hw], by simp [emit_loop]; omega⟩
  | cons x rs ih =>
    intro p remaining wire hp hlt hw hr
    cases remaining with
    | zero => exact ⟨p, le_refl _, by omega, by simp [emit_loop, hw], by simp [emit_loop]; omega⟩
    | succ r =>
      cases x with
      | fail errno =>
        by_cases he : errno = EINTR
        · simp only [countsInRange, he, if_true] at hr
          simp only [emit_loop, he, if_true]
          exact ih p (r + 1) wire hp hlt hw hr
        · exact ⟨p, le_refl _, by omega, by simp [emit_loop, he, hw], by simp [emit_loop, he]; omega⟩
      | ok n =>
        simp only [countsInRange, Bool.and_eq_true, decide_eq_true_eq] at hr
        obtain ⟨⟨h1, h2⟩, h3⟩ := hr
        have hmod : (r + 1 + 2 ^ 64 - n % 2 ^ 64) % 2 ^ 64 = r + 1 - n := by
          have hn : n % 2 ^ 64 = n := Nat.mod_eq_of_lt (by omega)
          rw [hn]
          have : r + 1 + 2 ^ 64 - n = (r + 1 - n) + 2 ^ 64 := by omega
          rw [this, Nat.add_mod_right]
          exact Nat.mod_eq_of_lt (by omega)
        simp only [emit_loop, hmod]
        have hw2 : wire ++ (data.drop p).take n = data.take (p + n) := by
          rw [hw, List.take_add]
        obtain ⟨q, hq1, hq2, hq3, hq4⟩ := ih (p + n) (r + 1 - n) _ (by omega) (by omega) hw2 h3
        exact ⟨q, by omega, hq2, hq3, hq4⟩

/-- With interrupts as the only failures, the write loop runs to completion
exactly when the successful sends of the script accept enough bytes. -/
theorem emit_loop_done_iff (data : List Byte) :
    ∀ (rs : List SendRes) (p remaining : Nat) (wire : List Byte),
      remaining < 2 ^ 64 → countsInRange rs remaining = true → onlyInterrupts rs = true →
      ((emit_loop data rs p remaining wire).status = EmitStatus.done ↔ remaining ≤ offered rs) := by
  intro rs
  induction rs with
  | nil =>
    intro p remaining wire _ _ _
    cases remaining <;> simp [emit_loop, offered]
  | cons x rs ih =>
    intro p remaining wire hlt hr ho
    cases remaining with
    | zero => simp [emit_loop]
    | succ r =>
      cases x with
      | fail errno =>
        have he : errno = EINTR := by
          simp [onlyInterrupts] at ho
          exact ho.1
        have ho2 : onlyInterrupts rs = true := by
          simp [onlyInterrupts] at ho ⊢
          exact ho.2
        simp only [countsInRange, he, if_true] at hr
        simp only [emit_loop, he, if_true, offered]
        exact ih p (r + 1) wire hlt hr ho2
      | ok n =>
        simp only [countsInRange, Bool.and_eq_true, decide_eq_true_eq] at hr
        obtain ⟨⟨h1, h2⟩, h3⟩ := hr
        have ho2 : onlyInterrupts rs = true := by
          simp [onlyInterrupts] at ho ⊢
          exact ho
        have hmod : (r + 1 + 2 ^ 64 - n % 2 ^ 64) % 2 ^ 64 = r + 1 - n := by
          have hn : n % 2 ^ 64 = n := Nat.mod_eq_of_lt (by omega)
          rw [hn]
          have : r + 1 + 2 ^ 64 - n = (r + 1 - n) + 2 ^ 64 := by omega
          rw [this, Nat.add_mod_right]
          exact Nat.mod_eq_of_lt (by omega)
        simp only [emit_loop, hmod, offered]
        rw [ih _ _ _ (by omega) h3 ho2]
        omega

/-- A script that holds a failure other than an interrupt never leaves the
write loop waiting for a further result. -/
theorem emit_loop_not_pending (data : List Byte) :
    ∀ (rs : List SendRes) (p remaining : Nat) (wire : List Byte),
      onlyInterrupts rs = false →
      (emit_loop data rs p remaining wire).status ≠ EmitStatus.pending := by
  intro rs
  induction rs with
  | nil =>
    intro p remaining wire ho
    simp [onlyInterrupts] at ho
  | cons x rs ih =>
    intro p remaining wire ho
    cases remaining with
    | zero => simp [emit_loop]
    | succ r =>
      cases x with
      | fail errno =>
        by_cases he : errno = EINTR
        · simp only [emit_loop, he, if_true]
          apply ih
          simpa [onlyInterrupts, he] using ho
        · simp [emit_loop, he]
      | ok n =>
        simp only [emit_loop]
        apply ih
        simpa [onlyInterrupts] using ho

/-- A script of interrupts only leaves the write loop of a non-empty buffer
waiting, with nothing written. -/
theorem emit_loop_interrupts (data : List Byte) (p remaining : Nat) (wire : List Byte) :
    ∀ k : Nat, emit_loop data (List.replicate k (SendRes.fail EINTR)) p (remaining + 1) wire =
      ⟨EmitStatus.pending, wire, []⟩ := by
  intro k
  induction k with
  | zero => simp [emit_loop]
  | succ k ih => simp [List.replicate_succ, emit_loop, ih]

/-- A script of interrupts only holds no successful send out of range. -/
theorem countsInRange_interrupts (remaining : Nat) :
    ∀ k : Nat, countsInRange (List.replicate k (SendRes.fail EINTR)) (remaining + 1) = true := by
  intro k
  induction k with
  | zero => rfl
  | succ k ih => simpa [List.replicate_succ, countsInRange] using ih

/-- C10, as amended: for a buffer and a script of `::send` results in which every
successful send returns a count between 1 and the bytes remaining, the bytes
accepted are always an initial part of the buffer, in order, none repeated
or skipped.  When every failure is an interrupt, the loop runs to completion
exactly when the successful sends accept enough bytes to cover the buffer,
and then the whole buffer has been written.  When the script holds another
failure, the loop either completes before meeting it or stops at it with
strictly less than the buffer written. -/
theorem tls_emit_data_writes_in_full (data : List Byte) (rs : List SendRes)
    (hlen : data.length < 2 ^ 64) (hr : countsInRange rs data.length = true) :
    (∃ q, q ≤ data.length ∧ (tls_emit_data rs data).wire = data.take q) ∧
    (onlyInterrupts rs = true →
      ((tls_emit_data rs data).status = EmitStatus.done ↔ data.length ≤ offered rs) ∧
      (data.length ≤ offered rs → (tls_emit_data rs data).wire = data)) ∧
    (onlyInterrupts rs = false →
      ((tls_emit_data rs data).status = EmitStatus.done ∧ (tls_emit_data rs data).wire = data) ∨
      ((tls_emit_data rs data).status = EmitStatus.failed ∧
        ∃ q, q < data.length ∧ (tls_emit_data rs data).wire = data.take q)) := by
  obtain ⟨q, _, hq2, hq3, hq4⟩ :=
    emit_loop_wire data rs 0 data.length [] (by simp) hlen (by simp) hr
  refine ⟨⟨q, hq2, hq3⟩, ?_, ?_⟩
  · intro ho
    have hiff := emit_loop_done_iff data rs 0 data.length [] hlen hr ho
    refine ⟨hiff, ?_⟩
    intro hoff
    have hd : (emit_loop data rs 0 data.length []).status = EmitStatus.done := hiff.2 hoff
    have hq : q = data.length := hq4.1 hd
    simp only [tls_emit_data]
    rw [hq3, hq, List.take_length]
  · intro ho
    have hnp := emit_loop_not_pending data rs 0 data.length [] ho
    by_cases hd : (emit_loop data rs 0 data.length []).status = EmitStatus.done
    · left
      have hq : q = data.length := hq4.1 hd
      refine ⟨hd, ?_⟩
      simp only [tls_emit_data]
      rw [hq3, hq, List.take_length]
    · right
      refine ⟨?_, q, ?_, hq3⟩
      · simp only [tls_emit_data]
        cases hst : (emit_loop data rs 0 data.length []).status with
        | done => exact absurd hst hd
        | failed => rfl
        | pending => exact absurd hst hnp
      · have : q ≠ data.length := fun h => hd (hq4.2 h)
        omega

/-- C10 at a concrete buffer: five bytes written by an interrupted send, a
send of two bytes and a send of three. -/
theorem tls_emit_data_writes_in_full_witness :
    (tls_emit_data [SendRes.fail EINTR, SendRes.ok 2, SendRes.ok 3] [1, 2, 3, 4, 5]).status
        = EmitStatus.done ∧
      (tls_emit_data [SendRes.fail EINTR, SendRes.ok 2, SendRes.ok 3] [1, 2, 3, 4, 5]).wire
        = [1, 2, 3, 4, 5] := by
  have h := (tls_emit_data_writes_in_full [1, 2, 3, 4, 5]
    [SendRes.fail EINTR, SendRes.ok 2, SendRes.ok 3] (by norm_num) (by decide)).2.1 (by decide)
  exact ⟨h.1.2 (by decide), h.2 (by decide)⟩

/-- C10 as stated fails: a `::send` that is interrupted every time satisfies
the conditions of the claim (no successful send is out of range, every failure
is `EINTR`), and however many results it supplies the write loop of a one-byte
buffer is still running with nothing written. -/
theorem tls_emit_data_interrupted_forever :
    ¬ ∃ k : Nat,
      ¬ (countsInRange (List.replicate k (SendRes.fail EINTR)) [(65 : Byte)].length = true ∧
        onlyInterrupts (List.replicate k (SendRes.fail EINTR)) = true ∧
        tls_emit_data (List.replicate k (SendRes.fail EINTR)) [(65 : Byte)] =
          ⟨EmitStatus.pending, [], []⟩) := by
  rintro ⟨k, hk⟩
  apply hk
  refine ⟨countsInRange_interrupts 0 k, ?_, ?_⟩
  · simp [onlyInterrupts]
  · simpa [tls_emit_data] using emit_loop_interrupts [(65 : Byte)] 0 0 [] k

/-! ## Theorems: the session driver -/

/-- Invariants of the loop: a property `J` kept by every pass that goes on to the
loop condition holds when the loop is left waiting or by its condition, the
property `B` of the passes ending in `break` when it is left that way, and the
property `T` of the passes ending in an exception when it is left by one. -/
theorem loop_sat {σ : Type} (v : Variant) (E : Engine σ) (host : String)
    (J B T : Cfg σ → Prop) (hJB : ∀ c, J c → B c)
    (hbody : ∀ ev c, J c → guard v E c = true → (body v E host ev c).sat J B T) :
    ∀ (evs : List Event) (c : Cfg σ), J c → (loop v E host evs c).sat J B T := by
  intro evs
  induction evs with
  | nil =>
    intro c hJ
    simp only [loop]
    split
    · exact hJ
    · exact hJB c hJ
  | cons ev rest ih =>
    intro c hJ
    simp only [loop]
    split
    · rename_i hg
      have hb := hbody ev c hJ hg
      cases hf : body v E host ev c with
      | next c1 =>
        rw [hf] at hb
        exact ih c1 hb
      | brk c1 =>
        rw [hf] at hb
        exact hb
      | thrown c1 =>
        rw [hf] at hb
        exact hb
    · exact hJB c hJ

@[simp] theorem sendCount_emits (out : List (List Byte)) : sendCount (emits out) = 0 := by
  simp [sendCount, emits, List.countP_eq_zero, Act.isSend]

@[simp] theorem sendCount_append (l m : List Act) :
    sendCount (l ++ m) = sendCount l + sendCount m := by
  simp [sendCount]

@[simp] theorem sendCount_cons (a : Act) (l : List Act) :
    sendCount (a :: l) = sendCount l + (if a.isSend then 1 else 0) := by
  simp [sendCount, List.countP_cons]

@[simp] theorem sendCount_nil : sendCount [] = 0 := rfl

@[simp] theorem is_active_not_mem_emits (b : Bool) (out : List (List Byte)) :
    Act.is_active b ∉ emits out := by
  simp [emits]

@[simp] theorem sock_close_not_mem_emits (out : List (List Byte)) :
    Act.sock_close ∉ emits out := by
  simp [emits]

@[simp] theorem close_not_mem_emits (out : List (List Byte)) :
    Act.close ∉ emits out := by
  simp [emits]

@[simp] theorem recv_not_mem_emits (n : Int) (out : List (List Byte)) :
    Act.recv n ∉ emits out := by
  simp [emits]

theorem body_sentOnce {σ : Type} (v : Variant) (E : Engine σ) (host : String)
    (ev : Event) (c : Cfg σ) (hJ : sentOnce c) :
    (body v E host ev c).sat sentOnce sentOnce (fun c => onceIfActive c.log) := by
  simp only [body, deferred_send, do_send]
  rcases hJ with ⟨h1, h2, h3⟩ | ⟨h1, h2⟩ <;>
    (repeat' split) <;>
    simp_all [Flow.sat, sentOnce, onceIfActive, Act.isSend]

theorem body_sentAlready {σ : Type} (v : Variant) (E : Engine σ) (host : String)
    (ev : Event) (c : Cfg σ) (hJ : sentAlready c) :
    (body v E host ev c).sat sentAlready sentAlready (fun c => sendCount c.log = 1) := by
  simp only [body, deferred_send, do_send]
  obtain ⟨h1, h2⟩ := hJ
  (repeat' split) <;> simp_all [Flow.sat, sentAlready, Act.isSend]

/-- A read that leaves the engine active is followed at once by the send, unless
the request has gone out before. -/
theorem body_activating_read {σ : Type} (v : Variant) (E : Engine σ) (host : String)
    (chunk : List Byte) (c : Cfg σ) (e1 : σ) (hJ : sentOnce c) (hne : chunk ≠ [])
    (hk : (E.received_data c.eng chunk).next = some e1) (ha : E.is_active e1 = true) :
    (body v E host (Event.readable (RecvRes.got chunk)) c).sat
      sentAlready sentAlready (fun c => sendCount c.log = 1) := by
  cases chunk with
  | nil => exact absurd rfl hne
  | cons b bs =>
    simp only [body, deferred_send, do_send]
    rcases hJ with ⟨h1, h2, h3⟩ | ⟨h1, h2⟩ <;>
      (repeat' split) <;>
      simp_all [Flow.sat, sentAlready, Act.isSend]

/-- The loop run on a script in two parts: when the first part leaves it
waiting, the run goes on with the second part from there; otherwise the second
part is never looked at. -/
theorem loop_append {σ : Type} (v : Variant) (E : Engine σ) (host : String) :
    ∀ (pre post : List Event) (c : Cfg σ),
      loop v E host (pre ++ post) c =
        match loop v E host pre c with
        | LoopEnd.waiting c1 => loop v E host post c1
        | r => r := by
  intro pre
  induction pre with
  | nil =>
    intro post c
    by_cases hg : guard v E c = true
    · simp [loop, hg]
    · cases post <;> simp [loop, hg]
  | cons ev rest ih =>
    intro post c
    simp only [List.cons_append, loop]
    split
    · cases hf : body v E host ev c with
      | next c1 => exact ih post c1
      | brk c1 => rfl
      | thrown c1 => rfl
    · rfl

/-- A loop left waiting has its condition true. -/
theorem loop_waiting_guard {σ : Type} (v : Variant) (E : Engine σ) (host : String) :
    ∀ (evs : List Event) (c c1 : Cfg σ),
      loop v E host evs c = LoopEnd.waiting c1 → guard v E c1 = true := by
  intro evs
  induction evs with
  | nil =>
    intro c c1 h
    simp only [loop] at h
    split at h
    · rename_i hg
      cases h
      exact hg
    · cases h
  | cons ev rest ih =>
    intro c c1 h
    simp only [loop] at h
    split at h
    · cases hf : body v E host ev c with
      | next c2 =>
        rw [hf] at h
        exact ih c2 c1 h
      | brk c2 => rw [hf] at h; cases h
      | thrown c2 => rw [hf] at h; cases h
    · cases h

/-- What `main` does after the loop adds no `client.send` call. -/
theorem sendCount_drive {σ : Type} (v : Variant) (E : Engine σ) (host : String)
    (evs : List Event) (c : Cfg σ) :
    sendCount (drive v E host evs c).log = sendCount (loop v E host evs c).cfg.log := by
  simp only [drive]
  cases loop v E host evs c with
  | waiting c1 => rfl
  | exited c1 =>
    simp only [teardown, LoopEnd.cfg]
    split <;> simp [Act.isSend]
  | thrown c1 => simp [handler, LoopEnd.cfg, Act.isSend]

/-- What `main` does after the loop adds no `client.is_active()` call. -/
theorem is_active_mem_drive {σ : Type} (v : Variant) (E : Engine σ) (host : String)
    (evs : List Event) (c : Cfg σ) (b : Bool) :
    Act.is_active b ∈ (drive v E host evs c).log ↔
      Act.is_active b ∈ (loop v E host evs c).cfg.log := by
  simp only [drive]
  cases loop v E host evs c with
  | waiting c1 => rfl
  | exited c1 =>
    simp only [teardown, LoopEnd.cfg]
    split <;> simp
  | thrown c1 => simp [handler, LoopEnd.cfg]

theorem sat_same {σ : Type} (r : LoopEnd σ) (P : Cfg σ → Prop) (h : r.sat P P P) : P r.cfg := by
  cases r <;> exact h

theorem sat_mono {σ : Type} (r : LoopEnd σ) (J B T P : Cfg σ → Prop)
    (hJ : ∀ c, J c → P c) (hB : ∀ c, B c → P c) (hT : ∀ c, T c → P c)
    (h : r.sat J B T) : P r.cfg := by
  cases r with
  | waiting c => exact hJ c h
  | exited c => exact hB c h
  | thrown c => exact hT c h

theorem sentOnce_onceIfActive {σ : Type} (c : Cfg σ) (h : sentOnce c) : onceIfActive c.log := by
  rcases h with ⟨_, h2, h3⟩ | ⟨_, h2⟩
  · exact ⟨by omega, fun h => absurd h h3⟩
  · exact ⟨by omega, fun _ => h2⟩

theorem sentOnce_start {σ : Type} (E : Engine σ) (e : σ) : sentOnce (start E e) := by
  left
  simp [start]

/-- The loop makes at most one send, and exactly one as soon as `is_active()` has
answered true, from every state in which the invariant holds. -/
theorem loop_onceIfActive {σ : Type} (v : Variant) (E : Engine σ) (host : String)
    (evs : List Event) (c : Cfg σ) (h : sentOnce c) :
    onceIfActive (loop v E host evs c).cfg.log := by
  have hs := loop_sat v E host sentOnce sentOnce (fun c => onceIfActive c.log) (fun _ h => h)
    (fun ev c hJ _ => body_sentOnce v E host ev c hJ) evs c h
  exact sat_mono _ _ _ _ (fun c => onceIfActive c.log) sentOnce_onceIfActive
    sentOnce_onceIfActive (fun _ h => h) hs

/-- C1: in both programs and on every script of events, `client.send` is called
at most once; it is called exactly once in every session in which
`is_active()` answers true, and in every session in which a read leaves the
engine active, whatever timeouts and reads follow. -/
theorem payload_sent_exactly_once {σ : Type} (v : Variant) (E : Engine σ) (host : String) :
    (∀ evs : List Event, sendCount (session v E host evs).log ≤ 1) ∧
    (∀ evs : List Event, Act.is_active true ∈ (session v E host evs).log →
      sendCount (session v E host evs).log = 1) ∧
    (∀ (pre post : List Event) (chunk : List Byte) (e : σ) (c : Cfg σ) (e1 : σ),
      E.init.next = some e → loop v E host pre (start E e) = LoopEnd.waiting c →
      chunk ≠ [] → (E.received_data c.eng chunk).next = some e1 → E.is_active e1 = true →
      sendCount (session v E host (pre ++ Event.readable (RecvRes.got chunk) :: post)).log
        = 1) := by
  have key : ∀ evs : List Event, onceIfActive (session v E host evs).log := by
    intro evs
    simp only [session]
    cases hi : E.init.next with
    | none => simp [handler, onceIfActive, Act.isSend]
    | some e =>
      have h := loop_onceIfActive v E host evs (start E e) (sentOnce_start E e)
      simp only [onceIfActive, sendCount_drive, is_active_mem_drive]
      exact h
  refine ⟨fun evs => (key evs).1, fun evs => (key evs).2, ?_⟩
  intro pre post chunk e c e1 hi hpre hne hk ha
  simp only [session, hi, sendCount_drive]
  rw [loop_append, hpre]
  have hg := loop_waiting_guard v E host pre (start E e) c hpre
  have hc : sentOnce c := by
    have hs := loop_sat v E host sentOnce sentOnce (fun c => onceIfActive c.log) (fun _ h => h)
      (fun ev c hJ _ => body_sentOnce v E host ev c hJ) pre (start E e) (sentOnce_start E e)
    rw [hpre] at hs
    exact hs
  have hb := body_activating_read v E host chunk c e1 hc hne hk ha
  simp only [loop, hg, if_true]
  cases hf : body v E host (Event.readable (RecvRes.got chunk)) c with
  | next c1 =>
    rw [hf] at hb
    have hs := loop_sat v E host sentAlready sentAlready (fun c => sendCount c.log = 1)
      (fun _ h => h) (fun ev c hJ _ => body_sentAlready v E host ev c hJ) post c1 hb
    exact sat_mono _ _ _ _ (fun c => sendCount c.log = 1) (fun _ h => h.2) (fun _ h => h.2)
      (fun _ h => h) hs
  | brk c1 =>
    rw [hf] at hb
    exact hb.2
  | thrown c1 =>
    rw [hf] at hb
    exact hb

/-- C1 on the sample engine, which is active from its second byte on: one byte
is read, then a second, then two timeouts and a third byte follow. -/
theorem payload_sent_exactly_once_witness :
    sendCount (session Variant.fixed (demo 2 9 false) "h"
      ([Event.readable (RecvRes.got [1])] ++ Event.readable (RecvRes.got [2]) ::
        [Event.timeout, Event.timeout, Event.readable (RecvRes.got [3])])).log = 1 :=
  (payload_sent_exactly_once Variant.fixed (demo 2 9 false) "h").2.2
    [Event.readable (RecvRes.got [1])]
    [Event.timeout, Event.timeout, Event.readable (RecvRes.got [3])] [2] 0
    { eng := 1, request_sent := false, peer_closed := false, timeout_count := 0,
      log := [Act.emit [22], Act.recv 1, Act.received_data [1], Act.emit [1],
        Act.is_active false] }
    2 rfl rfl (by decide) rfl rfl

/-! ### The transport handle -/

theorem getLast_cons_snoc {α : Type} (a x : α) (l : List α) :
    (a :: (l ++ [x])).getLast? = some x := by
  rw [← List.cons_append, List.getLast?_append]
  simp

theorem body_no_sock_close {σ : Type} (v : Variant) (E : Engine σ) (host : String)
    (ev : Event) (c : Cfg σ) (hJ : Act.sock_close ∉ c.log) :
    (body v E host ev c).sat (fun c => Act.sock_close ∉ c.log) (fun c => Act.sock_close ∉ c.log)
      (fun c => Act.sock_close ∉ c.log) := by
  simp only [body, deferred_send, do_send]
  (repeat' split) <;> simp_all [Flow.sat]

/-- The loop never closes the socket. -/
theorem loop_no_sock_close {σ : Type} (v : Variant) (E : Engine σ) (host : String)
    (evs : List Event) (c : Cfg σ) (h : Act.sock_close ∉ c.log) :
    Act.sock_close ∉ (loop v E host evs c).cfg.log :=
  sat_same _ (fun c => Act.sock_close ∉ c.log)
    (loop_sat v E host _ _ _ (fun _ h => h)
      (fun ev c hJ _ => body_no_sock_close v E host ev c hJ) evs c h)

/-- Once the program has returned, the socket has been closed exactly once,
as the last call. -/
theorem drive_sock_close {σ : Type} (v : Variant) (E : Engine σ) (host : String)
    (evs : List Event) (c : Cfg σ) (h : Act.sock_close ∉ c.log)
    (hc : (drive v E host evs c).code ≠ none) :
    (drive v E host evs c).log.count Act.sock_close = 1 ∧
      (drive v E host evs c).log.getLast? = some Act.sock_close := by
  have hl := loop_no_sock_close v E host evs c h
  simp only [drive] at hc ⊢
  cases hr : loop v E host evs c with
  | waiting c1 => simp [hr] at hc
  | exited c1 =>
    rw [hr] at hl
    simp only [LoopEnd.cfg] at hl
    simp only [teardown]
    split <;> simp [List.count_eq_zero_of_not_mem hl, List.count_eq_zero_of_not_mem
      (close_not_mem_emits _), List.count_eq_zero_of_not_mem (sock_close_not_mem_emits _),
      getLast_cons_snoc]
  | thrown c1 =>
    rw [hr] at hl
    simp only [LoopEnd.cfg] at hl
    simp [handler, List.count_eq_zero_of_not_mem hl]

/-- The session closes the socket exactly once, as its last call, whenever
it returns. -/
theorem session_sock_close {σ : Type} (v : Variant) (E : Engine σ) (host : String)
    (evs : List Event) (hc : (session v E host evs).code ≠ none) :
    (session v E host evs).log.count Act.sock_close = 1 ∧
      (session v E host evs).log.getLast? = some Act.sock_close := by
  simp only [session] at hc ⊢
  cases hi : E.init.next with
  | none =>
    simp [handler, List.count_eq_zero_of_not_mem (sock_close_not_mem_emits _)]
  | some e =>
    simp only [hi] at hc
    exact drive_sock_close v E host evs (start E e) (by simp [start]) hc

/-- C5: on every path on which `main` returns after `connect_tcp` gave it a
valid socket, `::close(sock)` has been called exactly once, as the last call
of the session, and the exit code is 0 or 2. -/
theorem sock_closed_exactly_once {σ : Type} (v : Variant) (E : Engine σ) (host : String)
    (rc : Int) (res : List Candidate) (evs : List Event)
    (hsock : 0 ≤ (connect_tcp rc res).1)
    (hret : (main v E host rc res evs).code ≠ none) :
    (main v E host rc res evs).log.count Act.sock_close = 1 ∧
      (main v E host rc res evs).log.getLast? = some Act.sock_close ∧
      ((main v E host rc res evs).code = some 0 ∨ (main v E host rc res evs).code = some 2) := by
  have hlt : ¬ (connect_tcp rc res).1 < 0 := by omega
  simp only [main, hlt, if_false] at hret ⊢
  obtain ⟨h1, h2⟩ := session_sock_close v E host evs hret
  refine ⟨h1, h2, ?_⟩
  simp only [session, drive] at hret ⊢
  cases hi : E.init.next with
  | none => right; rfl
  | some e =>
    simp only [hi] at hret ⊢
    cases hr : loop v E host evs (start E e) with
    | waiting c1 => simp [hr] at hret
    | exited c1 =>
      left
      simp only [teardown]
      split <;> rfl
    | thrown c1 => right; rfl

/-- C5 on the sample engine whose `close()` throws: the peer closes at once, the
exception leaves the loop, and the handler closes the socket. -/
theorem sock_closed_exactly_once_witness :
    (main Variant.plain (demo 2 9 true) "h" 0 [⟨3, 0⟩]
        [Event.readable (RecvRes.got [])]).log.count Act.sock_close = 1 ∧
      (main Variant.plain (demo 2 9 true) "h" 0 [⟨3, 0⟩]
        [Event.readable (RecvRes.got [])]).code = some 2 :=
  ⟨(sock_closed_exactly_once Variant.plain (demo 2 9 true) "h" 0 [⟨3, 0⟩]
      [Event.readable (RecvRes.got [])] (by decide) (by decide)).1, by decide⟩

/-! ### Sends come after activation -/

theorem sendsGuarded_append_neutral (l m : List Act) (hl : sendsGuarded l)
    (hm : ∀ a ∈ m, a.isSend = false) : sendsGuarded (l ++ m) := by
  intro pre post req h
  rcases List.append_eq_append_iff.1 h with ⟨a1, h1, h2⟩ | ⟨c1, h1, h2⟩
  · have : Act.send req ∈ m := by
      rw [h2]
      simp
    have := hm _ this
    simp [Act.isSend] at this
  · cases c1 with
    | nil =>
      have : Act.send req ∈ m := by
        simp only [List.nil_append] at h2
        rw [← h2]
        simp
      have := hm _ this
      simp [Act.isSend] at this
    | cons x c2 =>
      simp only [List.cons_append, List.cons.injEq] at h2
      rw [← h2.1] at h1
      exact hl pre c2 req h1

theorem sendsGuarded_append_send (l : List Act) (req : String) (hl : sendsGuarded l) :
    sendsGuarded (l ++ [Act.is_active true] ++ [Act.send req]) := by
  intro pre post req1 h
  rcases List.append_eq_append_iff.1 h with ⟨a1, h1, h2⟩ | ⟨c1, h1, h2⟩
  · cases a1 with
    | nil => exact ⟨l, by simpa using h1⟩
    | cons x a2 =>
      simp only [List.cons_append, List.cons.injEq] at h2
      have := congrArg List.length h2.2
      simp at this
      omega
  · cases c1 with
    | nil => exact ⟨l, by simpa using h1.symm⟩
    | cons x c2 =>
      simp only [List.cons_append, List.cons.injEq] at h2
      rw [← h2.1] at h1
      have hg : sendsGuarded (l ++ [Act.is_active true]) :=
        sendsGuarded_append_neutral l _ hl (by simp [Act.isSend])
      exact hg pre c2 req1 h1

theorem emits_neutral (out : List (List Byte)) : ∀ a ∈ emits out, a.isSend = false := by
  intro a ha
  simp only [emits, List.mem_map] at ha
  obtain ⟨b, _, rfl⟩ := ha
  rfl

theorem do_send_guarded {σ : Type} (E : Engine σ) (req : String) (c : Cfg σ)
    (l : List Act) (hlog : c.log = l ++ [Act.is_active true]) (h : sendsGuarded l) :
    (do_send E req c).sat
      (fun c => sendsGuarded c.log) (fun c => sendsGuarded c.log)
      (fun c => sendsGuarded c.log) := by
  have hg : sendsGuarded (c.log ++ [Act.send req] ++ emits (E.send c.eng req).out) := by
    rw [hlog]
    exact sendsGuarded_append_neutral _ _ (sendsGuarded_append_send _ req h) (emits_neutral _)
  simp only [do_send]
  split <;> exact hg

theorem deferred_send_guarded {σ : Type} (E : Engine σ) (req : String) (c : Cfg σ)
    (h : sendsGuarded c.log) :
    (deferred_send E req c).sat
      (fun c => sendsGuarded c.log) (fun c => sendsGuarded c.log)
      (fun c => sendsGuarded c.log) := by
  simp only [deferred_send]
  split
  · exact h
  · cases ha : E.is_active c.eng with
    | true => exact do_send_guarded E req _ c.log rfl h
    | false =>
      exact sendsGuarded_append_neutral _ _ h (by simp [Act.isSend])

theorem body_guarded {σ : Type} (v : Variant) (E : Engine σ) (host : String)
    (ev : Event) (c : Cfg σ) (h : sendsGuarded c.log) :
    (body v E host ev c).sat
      (fun c => sendsGuarded c.log) (fun c => sendsGuarded c.log)
      (fun c => sendsGuarded c.log) := by
  cases ev with
  | select_err errno =>
    simp only [body]
    split <;> exact h
  | timeout =>
    cases v with
    | plain => exact deferred_send_guarded E _ c h
    | fixed =>
      simp only [body]
      cases ha : E.is_active c.eng with
      | false =>
        exact sendsGuarded_append_neutral _ _ h (by simp [Act.isSend])
      | true =>
        cases hs : c.request_sent with
        | false =>
          simp only [Bool.not_false, Bool.and_self, if_true]
          exact do_send_guarded E _ _ c.log rfl h
        | true =>
          exact sendsGuarded_append_neutral _ _ h (by simp [Act.isSend])
  | not_set => exact deferred_send_guarded E _ c h
  | readable r =>
    cases r with
    | err errno =>
      have hg : sendsGuarded (c.log ++ [Act.recv (-1)]) :=
        sendsGuarded_append_neutral _ _ h (by simp [Act.isSend])
      simp only [body]
      split <;> exact hg
    | got bytes =>
      cases bytes with
      | nil =>
        have hg : sendsGuarded (c.log ++ [Act.recv 0] ++ [Act.close] ++ emits (E.close c.eng).out) :=
          sendsGuarded_append_neutral _ _ (sendsGuarded_append_neutral _ _
            (sendsGuarded_append_neutral _ _ h (by simp [Act.isSend])) (by simp [Act.isSend]))
            (emits_neutral _)
        simp only [body]
        split <;> exact hg
      | cons b bs =>
        have hg : sendsGuarded (c.log ++ [Act.recv ((b :: bs).length : Nat)]
            ++ [Act.received_data (b :: bs)] ++ emits (E.received_data c.eng (b :: bs)).out) :=
          sendsGuarded_append_neutral _ _ (sendsGuarded_append_neutral _ _
            (sendsGuarded_append_neutral _ _ h (by simp [Act.isSend])) (by simp [Act.isSend]))
            (emits_neutral _)
        simp only [body]
        split
        · exact hg
        · cases v with
          | plain => exact deferred_send_guarded E _ _ hg
          | fixed => exact deferred_send_guarded E _ _ hg

theorem loop_guarded {σ : Type} (v : Variant) (E : Engine σ) (host : String)
    (evs : List Event) (c : Cfg σ) (h : sendsGuarded c.log) :
    sendsGuarded (loop v E host evs c).cfg.log :=
  sat_same _ (fun c => sendsGuarded c.log)
    (loop_sat v E host _ _ _ (fun _ h => h)
      (fun ev c hJ _ => body_guarded v E host ev c hJ) evs c h)

theorem sendsGuarded_nil : sendsGuarded [] := by
  intro pre post req h
  simp at h

theorem session_guarded {σ : Type} (v : Variant) (E : Engine σ) (host : String)
    (evs : List Event) : sendsGuarded (session v E host evs).log := by
  have h0 : sendsGuarded (emits E.init.out) := by
    simpa using sendsGuarded_append_neutral [] _ sendsGuarded_nil (emits_neutral E.init.out)
  simp only [session]
  cases hi : E.init.next with
  | none =>
    exact sendsGuarded_append_neutral _ _ h0 (by simp [Act.isSend])
  | some e =>
    have hl := loop_guarded v E host evs (start E e) h0
    simp only [drive]
    cases hr : loop v E host evs (start E e) with
    | waiting c1 =>
      rw [hr] at hl
      exact hl
    | exited c1 =>
      rw [hr] at hl
      simp only [LoopEnd.cfg] at hl
      simp only [teardown]
      split
      · exact sendsGuarded_append_neutral _ _ hl (by simp [Act.isSend])
      · exact sendsGuarded_append_neutral _ _ (sendsGuarded_append_neutral _ _
          (sendsGuarded_append_neutral _ _ hl (by simp [Act.isSend])) (emits_neutral _))
          (by simp [Act.isSend])
    | thrown c1 =>
      rw [hr] at hl
      exact sendsGuarded_append_neutral _ _ hl (by simp [Act.isSend])

theorem body_no_eof {σ : Type} (v : Variant) (E : Engine σ) (host : String)
    (ev : Event) (c : Cfg σ) (hJ : Act.recv 0 ∉ c.log) :
    (body v E host ev c).sat (fun c => Act.recv 0 ∉ c.log) (fun _ => True) (fun _ => True) := by
  simp only [body, deferred_send, do_send]
  (repeat' split) <;> simp_all [Flow.sat] <;> omega

/-- A session that has read end-of-stream has returned. -/
theorem session_eof_returns {σ : Type} (v : Variant) (E : Engine σ) (host : String)
    (evs : List Event) (h : Act.recv 0 ∈ (session v E host evs).log) :
    (session v E host evs).code ≠ none := by
  simp only [session] at h ⊢
  cases hi : E.init.next with
  | none => simp [handler]
  | some e =>
    simp only [hi, drive] at h ⊢
    have hs := loop_sat v E host (fun c => Act.recv 0 ∉ c.log) (fun _ => True) (fun _ => True)
      (fun _ _ => trivial) (fun ev c hJ _ => body_no_eof v E host ev c hJ) evs (start E e)
      (by simp [start])
    cases hr : loop v E host evs (start E e) with
    | waiting c1 =>
      rw [hr] at hs h
      exact absurd h hs
    | exited c1 =>
      simp only [teardown]
      split <;> simp
    | thrown c1 => simp [handler]

theorem send_mem_of_sendCount {log : List Act} (h : sendCount log ≠ 0) :
    ∃ pre post req, log = pre ++ Act.send req :: post := by
  have hpos : 0 < List.countP Act.isSend log := Nat.pos_of_ne_zero h
  obtain ⟨a, ha, hs⟩ := List.countP_pos_iff.1 hpos
  cases a with
  | send req =>
    obtain ⟨pre, post, hl⟩ := List.append_of_mem ha
    exact ⟨pre, post, req, hl⟩
  | _ => simp [Act.isSend] at hs

/-- C2: in both programs, every `client.send` call comes directly after a
`client.is_active()` call that answered true; and a session in which `recv`
returned 0 while `is_active()` had never answered true has returned, has closed
the socket once, and has never called `client.send`. -/
theorem send_only_after_active {σ : Type} (v : Variant) (E : Engine σ) (host : String)
    (evs : List Event) :
    (∀ (pre post : List Act) (req : String),
      (session v E host evs).log = pre ++ Act.send req :: post →
      ∃ pre1, pre = pre1 ++ [Act.is_active true]) ∧
    (Act.recv 0 ∈ (session v E host evs).log →
      Act.is_active true ∉ (session v E host evs).log →
      (session v E host evs).code ≠ none ∧
      sendCount (session v E host evs).log = 0 ∧
      (session v E host evs).log.count Act.sock_close = 1) := by
  have hg := session_guarded v E host evs
  refine ⟨hg, ?_⟩
  intro heof hna
  have hc := session_eof_returns v E host evs heof
  refine ⟨hc, ?_, (session_sock_close v E host evs hc).1⟩
  by_contra hne
  obtain ⟨pre, post, req, hl⟩ := send_mem_of_sendCount hne
  obtain ⟨pre1, hp⟩ := hg pre post req hl
  apply hna
  rw [hl, hp]
  simp

/-- C2 on the sample engine: the peer closes after one byte, before the engine
is active. -/
theorem send_only_after_active_witness :
    (session Variant.fixed (demo 2 9 false) "h"
        [Event.readable (RecvRes.got [1]), Event.readable (RecvRes.got [])]).code = some 0 ∧
      sendCount (session Variant.fixed (demo 2 9 false) "h"
        [Event.readable (RecvRes.got [1]), Event.readable (RecvRes.got [])]).log = 0 := by
  have h := (send_only_after_active Variant.fixed (demo 2 9 false) "h"
    [Event.readable (RecvRes.got [1]), Event.readable (RecvRes.got [])]).2
    (by decide) (by decide)
  exact ⟨by decide, h.2.1⟩

/-! ### Failures of `select`, `recv` and `send` -/

theorem teardown_code {σ : Type} (E : Engine σ) (c : Cfg σ) : (teardown E c).code = some 0 := by
  simp only [teardown]
  split <;> rfl

/-- In the fixed program, with an engine that is neither active nor closed, a
run of timeouts and interrupted `select` calls holding enough timeouts to use
up the budget ends the loop by its condition, after one `is_active()` query
per timeout and nothing else. -/
theorem loop_timeouts {σ : Type} (E : Engine σ) (host : String) (rest : List Event) :
    ∀ (evs : List Event) (c : Cfg σ),
      E.is_closed c.eng = false → E.is_active c.eng = false →
      c.timeout_count ≤ max_timeouts →
      (∀ ev ∈ evs, ev = Event.timeout ∨ ev = Event.select_err EINTR) →
      max_timeouts - c.timeout_count ≤ evs.count Event.timeout →
      ∃ c1, loop Variant.fixed E host (evs ++ rest) c = LoopEnd.exited c1 ∧
        c1.log = c.log ++ List.replicate (max_timeouts - c.timeout_count) (Act.is_active false) ∧
        c1.eng = c.eng ∧ c1.peer_closed = c.peer_closed ∧ c1.request_sent = c.request_sent := by
  intro evs
  induction evs with
  | nil =>
    intro c hc _ hle _ hn
    have htc : c.timeout_count = max_timeouts := by
      simp only [List.count_nil] at hn
      omega
    refine ⟨c, ?_, by simp [htc], rfl, rfl, rfl⟩
    cases rest <;> simp [loop, guard, htc]
  | cons ev evs ih =>
    intro c hc ha hle hevs hn
    by_cases htc : c.timeout_count = max_timeouts
    · refine ⟨c, ?_, by simp [htc], rfl, rfl, rfl⟩
      simp [loop, guard, htc]
    · have hlt : c.timeout_count < max_timeouts := by omega
      have hg : guard Variant.fixed E c = true := by simp [guard, hc, hlt]
      have hevs2 : ∀ ev ∈ evs, ev = Event.timeout ∨ ev = Event.select_err EINTR :=
        fun x hx => hevs x (List.mem_cons_of_mem _ hx)
      rcases hevs ev (List.mem_cons_self _ _) with rfl | rfl
      · have hn2 : max_timeouts - (c.timeout_count + 1) ≤ evs.count Event.timeout := by
          simp only [List.count_cons_self] at hn
          omega
        obtain ⟨c1, h1, h2, h3, h4, h5⟩ := ih
          { c with timeout_count := c.timeout_count + 1, log := c.log ++ [Act.is_active false] }
          hc ha (by simpa using hlt) hevs2 hn2
        refine ⟨c1, ?_, ?_, h3, h4, h5⟩
        · simp only [List.cons_append, loop, hg, if_true, body, ha]
          simpa using h1
        · rw [h2]
          have : max_timeouts - c.timeout_count = (max_timeouts - (c.timeout_count + 1)) + 1 := by
            omega
          simp only [this, List.replicate_succ, List.append_assoc, List.singleton_append]
      · have hn2 : max_timeouts - c.timeout_count ≤ evs.count Event.timeout := by
          rw [List.count_cons_of_ne (by simp)] at hn
          exact hn
        obtain ⟨c1, h1, h2, h3, h4, h5⟩ := ih c hc ha hle hevs2 hn2
        refine ⟨c1, ?_, h2, h3, h4, h5⟩
        simp only [List.cons_append, loop, hg, if_true, body]
        exact h1

/-! ### The close request and the end of stream -/

theorem body_peer {σ : Type} (v : Variant) (E : Engine σ) (host : String)
    (ev : Event) (c : Cfg σ) (hJ : peerOpen c) :
    (body v E host ev c).sat peerOpen (fun c => peerOpen c ∨ peerClosed c)
      (fun c => peerOpen c ∨ peerClosed c) := by
  obtain ⟨h1, h2, h3⟩ := hJ
  by_cases hev : ev = Event.readable (RecvRes.got [])
  · subst hev
    have hshape : ∀ c1 : Cfg σ, c1.peer_closed = true →
        c1.log = c.log ++ [Act.recv 0] ++ [Act.close] ++ emits (E.close c.eng).out →
        peerOpen c1 ∨ peerClosed c1 := by
      intro c1 hp hl
      right
      exact ⟨hp, c.log, (E.close c.eng).out, by simpa using hl, h3, h2⟩
    simp only [body]
    split
    · exact hshape _ rfl rfl
    · exact hshape _ rfl rfl
  · simp only [body, deferred_send, do_send]
    (repeat' split) <;> simp_all [Flow.sat, peerOpen] <;> omega

/-- C9, as amended: `peer_closed` is set exactly when `recv` has returned 0, and
from then on the driver calls `client.close()` exactly once, at once in the
end-of-stream branch; nothing but what that call emits and `::close(sock)`
follows, so the guarded close after the loop is skipped.  No close request
precedes the end of stream. -/
theorem close_once_at_eof {σ : Type} (v : Variant) (E : Engine σ) (host : String)
    (evs : List Event) :
    ((session v E host evs).peer_closed = true ↔ Act.recv 0 ∈ (session v E host evs).log) ∧
    ((session v E host evs).peer_closed = true →
      ∃ pre out, (session v E host evs).log =
          pre ++ [Act.recv 0, Act.close] ++ emits out ++ [Act.sock_close] ∧
        Act.close ∉ pre ∧ Act.recv 0 ∉ pre ∧
        (session v E host evs).log.count Act.close = 1) := by
  have hcount : ∀ (pre : List Act) (out : List (List Byte)), Act.close ∉ pre →
      (pre ++ [Act.recv 0, Act.close] ++ emits out ++ [Act.sock_close]).count Act.close = 1 := by
    intro pre out hp
    simp [List.count_eq_zero_of_not_mem hp, List.count_eq_zero_of_not_mem (close_not_mem_emits _)]
  have key : ((session v E host evs).peer_closed = false ∧
        Act.recv 0 ∉ (session v E host evs).log) ∨
      ((session v E host evs).peer_closed = true ∧
        ∃ pre out, (session v E host evs).log =
            pre ++ [Act.recv 0, Act.close] ++ emits out ++ [Act.sock_close] ∧
          Act.close ∉ pre ∧ Act.recv 0 ∉ pre) := by
    simp only [session]
    cases hi : E.init.next with
    | none => left; simp [handler]
    | some e =>
      have hs := loop_sat v E host peerOpen (fun c => peerOpen c ∨ peerClosed c)
        (fun c => peerOpen c ∨ peerClosed c) (fun _ h => Or.inl h)
        (fun ev c hJ _ => body_peer v E host ev c hJ) evs (start E e)
        (by simp [peerOpen, start])
      simp only [drive]
      cases hr : loop v E host evs (start E e) with
      | waiting c1 =>
        rw [hr] at hs
        left
        exact ⟨hs.1, hs.2.1⟩
      | exited c1 =>
        rw [hr] at hs
        rcases hs with ⟨h1, h2, _⟩ | ⟨h1, pre, out, h2, h3, h4⟩
        · left
          simp [teardown, h1, h2]
        · right
          simp only [teardown, h1, if_true]
          exact ⟨trivial, pre, out, by rw [h2], h3, h4⟩
      | thrown c1 =>
        rw [hr] at hs
        rcases hs with ⟨h1, h2, _⟩ | ⟨h1, pre, out, h2, h3, h4⟩
        · left
          simp [handler, h1, h2]
        · right
          simp only [handler]
          exact ⟨h1, pre, out, by rw [h2], h3, h4⟩
  constructor
  · constructor
    · intro hp
      rcases key with ⟨h1, _⟩ | ⟨_, pre, out, h2, _, _⟩
      · rw [h1] at hp
        cases hp
      · rw [h2]
        simp
    · intro hm
      rcases key with ⟨_, h2⟩ | ⟨h1, _⟩
      · exact absurd hm h2
      · exact h1
  · intro hp
    rcases key with ⟨h1, _⟩ | ⟨_, pre, out, h2, h3, h4⟩
    · rw [h1] at hp
      cases hp
    · exact ⟨pre, out, h2, h3, h4, by rw [h2]; exact hcount pre out h3⟩

/-- C9, as amended, on the sample engine: the peer closes after one byte. -/
theorem close_once_at_eof_witness :
    (session Variant.fixed (demo 2 9 false) "h"
        [Event.readable (RecvRes.got [1]), Event.readable (RecvRes.got [])]).log.count
      Act.close = 1 := by
  obtain ⟨pre, out, _, _, _, h⟩ := (close_once_at_eof Variant.fixed (demo 2 9 false) "h"
    [Event.readable (RecvRes.got [1]), Event.readable (RecvRes.got [])]).2 (by decide)
  exact h

/-- C9 as stated fails: when `recv` returns 0 the driver sets `peer_closed` and
then calls `client.close()` in the same branch, in both programs. -/
theorem close_requested_after_peer_closed :
    (session Variant.plain (demo 2 9 false) "h" [Event.readable (RecvRes.got [])]).peer_closed
        = true ∧
      (session Variant.plain (demo 2 9 false) "h" [Event.readable (RecvRes.got [])]).log
        = [Act.emit [22], Act.recv 0, Act.close, Act.emit [21], Act.sock_close] ∧
      (session Variant.fixed (demo 2 9 false) "h" [Event.readable (RecvRes.got [])]).log
        = [Act.emit [22], Act.recv 0, Act.close, Act.emit [21], Act.sock_close] := by
  decide

/-! ### The timeout budget, from any waiting state -/

/-- C6: in the fixed program, from any point at which the loop is waiting with
an engine that is not active (it is not closed, the loop being still
running), on every continuation that starts with timeouts (and interrupted
`select` calls) holding at least `max_timeouts` timeouts, the loop ends
once the timeout counter has reached `max_timeouts`, with one `is_active()`
query per timeout and no other call; no exception reaches the handler, the
statements after the loop run (`client.close()` is requested), the socket is
closed exactly once and `main` returns 0. -/
theorem timeout_budget_terminates {σ : Type} (E : Engine σ) (host : String) (e : σ)
    (pre evs rest : List Event) (c : Cfg σ) (hi : E.init.next = some e)
    (hpre : loop Variant.fixed E host pre (start E e) = LoopEnd.waiting c)
    (ha : E.is_active c.eng = false)
    (hevs : ∀ ev ∈ evs, ev = Event.timeout ∨ ev = Event.select_err EINTR)
    (hn : max_timeouts ≤ evs.count Event.timeout) :
    (session Variant.fixed E host (pre ++ (evs ++ rest))).code = some 0 ∧
      (session Variant.fixed E host (pre ++ (evs ++ rest))).log =
        c.log ++ List.replicate (max_timeouts - c.timeout_count) (Act.is_active false)
          ++ [Act.close] ++ emits (E.close c.eng).out ++ [Act.sock_close] ∧
      (session Variant.fixed E host (pre ++ (evs ++ rest))).log.count Act.sock_close = 1 := by
  have hg := loop_waiting_guard Variant.fixed E host pre (start E e) c hpre
  simp only [guard, Bool.and_eq_true, Bool.not_eq_true', decide_eq_true_eq] at hg
  obtain ⟨hc, htc⟩ := hg
  have hopen : peerOpen c := by
    have hs := loop_sat Variant.fixed E host peerOpen (fun c => peerOpen c ∨ peerClosed c)
      (fun c => peerOpen c ∨ peerClosed c) (fun _ h => Or.inl h)
      (fun ev c hJ _ => body_peer Variant.fixed E host ev c hJ) pre (start E e)
      (by simp [peerOpen, start])
    rw [hpre] at hs
    exact hs
  obtain ⟨c1, h1, h2, h3, h4, _⟩ := loop_timeouts E host rest evs c hc ha
    (by omega) hevs (by omega)
  have hloop : loop Variant.fixed E host (pre ++ (evs ++ rest)) (start E e) =
      LoopEnd.exited c1 := by
    rw [loop_append, hpre]
    exact h1
  have hcode : (session Variant.fixed E host (pre ++ (evs ++ rest))).code = some 0 := by
    simp only [session, hi, drive, hloop]
    exact teardown_code E c1
  have hpc : c1.peer_closed = false := by rw [h4]; exact hopen.1
  refine ⟨hcode, ?_, ?_⟩
  · simp only [session, hi, drive, hloop, teardown, hpc]
    simp [h2, h3]
  · exact (session_sock_close Variant.fixed E host _ (by rw [hcode]; simp)).1

/-- C6 on the sample engine: one byte of the handshake, then ten timeouts with
an interrupted `select` among them, and a byte that arrives too late. -/
theorem timeout_budget_terminates_witness :
    (session Variant.fixed (demo 2 9 false) "h"
      ([Event.readable (RecvRes.got [1])] ++
        ((Event.select_err EINTR :: List.replicate 10 Event.timeout) ++
          [Event.readable (RecvRes.got [2])]))).code = some 0 :=
  (timeout_budget_terminates (demo 2 9 false) "h" 0
    [Event.readable (RecvRes.got [1])]
    (Event.select_err EINTR :: List.replicate 10 Event.timeout)
    [Event.readable (RecvRes.got [2])]
    { eng := 1, request_sent := false, peer_closed := false, timeout_count := 0,
      log := [Act.emit [22], Act.recv 1, Act.received_data [1], Act.emit [1],
        Act.is_active false] }
    rfl rfl rfl (by decide) (by decide)).1

/-! ### Framing -/

@[simp] theorem outbound_append (l m : List Act) :
    outbound (l ++ m) = outbound l ++ outbound m := by
  simp [outbound]

@[simp] theorem outbound_emits (out : List (List Byte)) : outbound (emits out) = emits out := by
  simp only [outbound, emits, List.filter_eq_self, List.mem_map]
  rintro a ⟨b, _, rfl⟩
  rfl

@[simp] theorem outbound_nil : outbound [] = [] := rfl

@[simp] theorem outbound_cons (a : Act) (l : List Act) :
    outbound (a :: l) = if a.isOutbound then a :: outbound l else outbound l := by
  simp only [outbound, List.filter_cons]

@[simp] theorem emits_append (o1 o2 : List (List Byte)) :
    emits (o1 ++ o2) = emits o1 ++ emits o2 := by
  simp [emits]

theorem drive_eq_finish {σ : Type} (v : Variant) (E : Engine σ) (host : String)
    (evs : List Event) (c : Cfg σ) :
    drive v E host evs c = finish E (loop v E host evs c) := by
  simp only [drive, finish]

theorem resultSame_refl {σ : Type} (r : Result σ) : r.same r :=
  ⟨rfl, rfl, rfl, rfl, rfl⟩

theorem resultSame_trans {σ : Type} {r1 r2 r3 : Result σ} (h1 : r1.same r2) (h2 : r2.same r3) :
    r1.same r3 :=
  ⟨h1.1.trans h2.1, h1.2.1.trans h2.2.1, h1.2.2.1.trans h2.2.2.1,
    h1.2.2.2.1.trans h2.2.2.2.1, h1.2.2.2.2.trans h2.2.2.2.2⟩

theorem resultSame_symm {σ : Type} {r1 r2 : Result σ} (h : r1.same r2) : r2.same r1 :=
  ⟨h.1.symm, h.2.1.symm, h.2.2.1.symm, h.2.2.2.1.symm, h.2.2.2.2.symm⟩

theorem cfgSame_refl {σ : Type} (c : Cfg σ) : c.same c :=
  ⟨rfl, rfl, rfl, rfl, rfl⟩

theorem deferred_send_same {σ : Type} (E : Engine σ) (req : String) (c d : Cfg σ)
    (h : c.same d) :
    (deferred_send E req c).same (deferred_send E req d) := by
  obtain ⟨e, rs, pc, tc, l1⟩ := c
  obtain ⟨e2, rs2, pc2, tc2, l2⟩ := d
  obtain ⟨h1, h2, h3, h4, h5⟩ := h
  simp only at h1 h2 h3 h4 h5
  subst h1 h2 h3 h4
  simp only [deferred_send, do_send]
  (repeat' split) <;> simp_all [Flow.same, Cfg.same, Cfg.sameOut, Act.isOutbound]

theorem body_same {σ : Type} (v : Variant) (E : Engine σ) (host : String) (ev : Event)
    (c d : Cfg σ) (h : c.same d) :
    (body v E host ev c).same (body v E host ev d) := by
  obtain ⟨e, rs, pc, tc, l1⟩ := c
  obtain ⟨e2, rs2, pc2, tc2, l2⟩ := d
  obtain ⟨h1, h2, h3, h4, h5⟩ := h
  simp only at h1 h2 h3 h4 h5
  subst h1 h2 h3 h4
  simp only [body, deferred_send, do_send]
  (repeat' split) <;> simp_all [Flow.same, Cfg.same, Cfg.sameOut, Act.isOutbound]

theorem guard_same {σ : Type} (v : Variant) (E : Engine σ) (c d : Cfg σ) (h : c.same d) :
    guard v E c = guard v E d := by
  obtain ⟨h1, _, _, h4, _⟩ := h
  cases v <;> simp [guard, h1, h4]

theorem loop_same {σ : Type} (v : Variant) (E : Engine σ) (host : String) :
    ∀ (evs : List Event) (c d : Cfg σ), c.same d →
      (loop v E host evs c).same (loop v E host evs d) := by
  intro evs
  induction evs with
  | nil =>
    intro c d h
    simp only [loop, guard_same v E c d h]
    split <;> exact h
  | cons ev rest ih =>
    intro c d h
    simp only [loop, guard_same v E c d h]
    split
    · have hb := body_same v E host ev c d h
      cases hc : body v E host ev c <;> cases hd : body v E host ev d <;>
        rw [hc, hd] at hb <;> simp only [Flow.same] at hb
      · exact ih _ _ hb
      · exact hb
      · exact hb
    · exact h

theorem finish_same {σ : Type} (E : Engine σ) (r1 r2 : LoopEnd σ) (h : r1.same r2) :
    (finish E r1).same (finish E r2) := by
  cases r1 <;> cases r2 <;> simp only [LoopEnd.same] at h
  · obtain ⟨h1, h2, h3, _, h5⟩ := h
    simp only [finish, teardown, h1, h3]
    split <;> simp [Result.same, h2, h3, h5, Act.isOutbound]
  · obtain ⟨h2, h3, h5⟩ := h
    simp [finish, handler, Result.same, h2, h3, h5, Act.isOutbound]
  · obtain ⟨h1, h2, h3, _, h5⟩ := h
    simp [finish, Result.same, h1, h2, h3, h5]

theorem cfgSameOut_refl {σ : Type} (c : Cfg σ) : c.sameOut c :=
  ⟨rfl, rfl, rfl⟩

theorem loopEndSame_refl {σ : Type} (r : LoopEnd σ) : r.same r := by
  cases r
  · exact cfgSame_refl _
  · exact cfgSameOut_refl _
  · exact cfgSame_refl _

theorem cfgSame_trans {σ : Type} {c d e : Cfg σ} (h1 : c.same d) (h2 : d.same e) : c.same e :=
  ⟨h1.1.trans h2.1, h1.2.1.trans h2.2.1, h1.2.2.1.trans h2.2.2.1,
    h1.2.2.2.1.trans h2.2.2.2.1, h1.2.2.2.2.trans h2.2.2.2.2⟩

theorem cfgSameOut_trans {σ : Type} {c d e : Cfg σ} (h1 : c.sameOut d) (h2 : d.sameOut e) :
    c.sameOut e :=
  ⟨h1.1.trans h2.1, h1.2.1.trans h2.2.1, h1.2.2.trans h2.2.2⟩

theorem loopEndSame_trans {σ : Type} {r1 r2 r3 : LoopEnd σ} (h1 : r1.same r2)
    (h2 : r2.same r3) : r1.same r3 := by
  cases r1 <;> cases r2 <;> simp only [LoopEnd.same] at h1 <;>
    cases r3 <;> simp only [LoopEnd.same] at h2 ⊢
  · exact cfgSame_trans h1 h2
  · exact cfgSameOut_trans h1 h2
  · exact cfgSame_trans h1 h2

theorem loopEndSame_symm {σ : Type} {r1 r2 : LoopEnd σ} (h : r1.same r2) : r2.same r1 := by
  cases r1 <;> cases r2 <;> simp only [LoopEnd.same] at h ⊢
  · exact ⟨h.1.symm, h.2.1.symm, h.2.2.1.symm, h.2.2.2.1.symm, h.2.2.2.2.symm⟩
  · exact ⟨h.1.symm, h.2.1.symm, h.2.2.symm⟩
  · exact ⟨h.1.symm, h.2.1.symm, h.2.2.1.symm, h.2.2.2.1.symm, h.2.2.2.2.symm⟩

/-- Two passes that end the same way in agreeing states are continued the same
way by the rest of the script. -/
theorem loop_cons_same {σ : Type} (v : Variant) (E : Engine σ) (host : String)
    (ev1 ev2 : Event) (rest : List Event) (c d : Cfg σ)
    (hgc : guard v E c = true) (hgd : guard v E d = true)
    (hb : (body v E host ev1 c).same (body v E host ev2 d)) :
    (loop v E host (ev1 :: rest) c).same (loop v E host (ev2 :: rest) d) := by
  simp only [loop, hgc, hgd, if_true]
  cases hc : body v E host ev1 c <;> cases hd : body v E host ev2 d <;>
    rw [hc, hd] at hb <;> simp only [Flow.same] at hb
  · exact loop_same v E host rest _ _ hb
  · exact hb
  · exact hb

/-- A read of data that leaves the engine inactive goes on to the loop condition,
having changed the engine state, the timeout counter and the log only. -/
theorem body_quiet_read {σ : Type} (v : Variant) (E : Engine σ) (host : String)
    (c : Cfg σ) (ch : List Byte) (o1 : List (List Byte)) (s1 : σ) (hch : ch ≠ [])
    (hfeed : E.received_data c.eng ch = ⟨o1, some s1⟩) (ha : E.is_active s1 = false) :
    ∃ d, body v E host (Event.readable (RecvRes.got ch)) c = Flow.next d ∧
      d.eng = s1 ∧ d.request_sent = c.request_sent ∧ d.peer_closed = c.peer_closed ∧
      d.timeout_count = (match v with
        | Variant.plain => c.timeout_count
        | Variant.fixed => 0) ∧
      outbound d.log = outbound c.log ++ emits o1 := by
  cases ch with
  | nil => exact absurd rfl hch
  | cons b bs =>
    cases v <;> cases hrs : c.request_sent <;>
      simp [body, deferred_send, hfeed, ha, hrs, Act.isOutbound]

/-- Feeding `a ++ R` in one read does what feeding `a` in one read and `R` in
the next does, when the engine is not active after `a`. -/
theorem read_merge {σ : Type} (v : Variant) (E : Engine σ) (host : String)
    (hE : feedSplitIndependent E) (c d : Cfg σ) (a R : List Byte) (rest : List Event)
    (o1 : List (List Byte)) (s1 : σ) (ha : a ≠ []) (hR : R ≠ [])
    (hfeed : E.received_data c.eng a = ⟨o1, some s1⟩)
    (hde : d.eng = s1) (hrs : d.request_sent = c.request_sent)
    (hpc : d.peer_closed = c.peer_closed)
    (htc : d.timeout_count = (match v with
        | Variant.plain => c.timeout_count
        | Variant.fixed => 0))
    (hout : outbound d.log = outbound c.log ++ emits o1)
    (hgc : guard v E c = true) (hgd : guard v E d = true) :
    (loop v E host (Event.readable (RecvRes.got (a ++ R)) :: rest) c).same
      (loop v E host (Event.readable (RecvRes.got R) :: rest) d) := by
  apply loop_cons_same v E host _ _ rest c d hgc hgd
  have hk := hE c.eng a R ha hR
  rw [hfeed] at hk
  simp only [EngRes.andThen] at hk
  obtain ⟨e, rs, pc, tc, l1⟩ := c
  obtain ⟨e2, rs2, pc2, tc2, l2⟩ := d
  simp only at hde hrs hpc htc hout hk hfeed
  subst hde hrs hpc
  cases a with
  | nil => exact absurd rfl ha
  | cons x a1 =>
    cases R with
    | nil => exact absurd rfl hR
    | cons y R1 =>
      simp only [List.cons_append] at hk ⊢
      cases hn : (E.received_data e2 (y :: R1)).next with
      | none =>
        simp [body, hk, hn, Flow.same, Cfg.sameOut, hout, Act.isOutbound]
      | some s2 =>
        cases v with
        | plain =>
          simp only [body, hk, hn]
          apply deferred_send_same
          simp only at htc
          subst htc
          simp [Cfg.same, hout, Act.isOutbound]
        | fixed =>
          simp only [body, hk, hn]
          apply deferred_send_same
          simp [Cfg.same, hout, Act.isOutbound]

/-- A stream read in chunks between which the engine is neither active nor closed
is handled as the same stream read in one piece. -/
theorem split_as_one {σ : Type} (v : Variant) (E : Engine σ) (host : String)
    (hE : feedSplitIndependent E) (rest : List Event) :
    ∀ (cs : List (List Byte)) (c : Cfg σ), cs ≠ [] → (∀ ch ∈ cs, ch ≠ []) →
      quietSplit E c.eng cs →
      (loop v E host (reads cs ++ rest) c).same
        (loop v E host (Event.readable (RecvRes.got cs.flatten) :: rest) c) := by
  intro cs
  induction cs with
  | nil => intro c h; exact absurd rfl h
  | cons ch cs1 ih =>
    intro c _ hne hq
    cases cs1 with
    | nil =>
      simp only [reads, List.map_cons, List.map_nil, List.flatten_cons, List.flatten_nil,
        List.append_nil, List.cons_append, List.nil_append]
      exact loopEndSame_refl _
    | cons ch2 cs2 =>
      have hch : ch ≠ [] := hne ch (List.mem_cons_self _ _)
      have hch2 : ch2 ≠ [] := hne ch2 (List.mem_cons_of_mem _ (List.mem_cons_self _ _))
      have hR : (ch2 :: cs2).flatten ≠ [] := by
        simp only [List.flatten_cons]
        intro h
        exact hch2 (List.append_eq_nil.1 h).1
      have hrd : reads (ch :: ch2 :: cs2) ++ rest =
          Event.readable (RecvRes.got ch) :: (reads (ch2 :: cs2) ++ rest) := by
        simp [reads]
      have hjoin : (ch :: ch2 :: cs2).flatten = ch ++ (ch2 :: cs2).flatten := by
        simp only [List.flatten_cons]
      rw [hrd, hjoin]
      by_cases hg : guard v E c = true
      · cases hfeed : E.received_data c.eng ch with
        | mk o1 n1 =>
          cases n1 with
          | none =>
            have hk := hE c.eng ch _ hch hR
            rw [hfeed] at hk
            simp only [EngRes.andThen] at hk
            cases ch with
            | nil => exact absurd rfl hch
            | cons x ch1 =>
              generalize (ch2 :: cs2).flatten = R at hk ⊢
              simp only [List.cons_append] at hk ⊢
              simp only [loop, hg, if_true, body, hk, hfeed]
              simp [LoopEnd.same, Cfg.sameOut, Act.isOutbound]
          | some s1 =>
            simp only [quietSplit, hfeed] at hq
            obtain ⟨ha, hcl, hq2⟩ := hq
            obtain ⟨d, hb, hde, hrs, hpc, htc, hout⟩ :=
              body_quiet_read v E host c ch o1 s1 hch hfeed ha
            have hgd : guard v E d = true := by
              cases v
              · simp [guard, hde, hcl]
              · simp only at htc
                simp [guard, hde, hcl, htc, max_timeouts]
            have hstep : loop v E host
                (Event.readable (RecvRes.got ch) :: (reads (ch2 :: cs2) ++ rest)) c =
                loop v E host (reads (ch2 :: cs2) ++ rest) d := by
              simp only [loop, hg, if_true, hb]
            rw [hstep]
            have h1 := ih d (by simp) (fun x hx => hne x (List.mem_cons_of_mem _ hx))
              (by rw [hde]; exact hq2)
            have h2 := read_merge v E host hE c d ch (ch2 :: cs2).flatten rest o1 s1 hch hR hfeed
              hde hrs hpc htc hout hg hgd
            exact loopEndSame_trans h1 (loopEndSame_symm h2)
      · have h1 : loop v E host
            (Event.readable (RecvRes.got ch) :: (reads (ch2 :: cs2) ++ rest)) c =
            LoopEnd.exited c := by
          simp only [loop, hg, if_false]
          rfl
        have h2 : loop v E host
            (Event.readable (RecvRes.got (ch ++ (ch2 :: cs2).flatten)) :: rest) c =
            LoopEnd.exited c := by
          simp only [loop, hg, if_false]
          rfl
        rw [h1, h2]
        exact loopEndSame_refl _

/-- The sample engine's feed does not depend on how the bytes are split. -/
theorem demo_feedSplitIndependent (activeAt closedAt : Nat) (closeThrows : Bool) :
    feedSplitIndependent (demo activeAt closedAt closeThrows) := by
  intro s a b _ _
  simp [demo, EngRes.andThen, Nat.add_assoc]

/-- C8, as amended: over an engine whose feed is split-independent, any two ways
of splitting the same inbound byte stream into non-empty chunks, such that the
engine is neither active nor closed at a boundary between two chunks of
either split, yield the same exit code, the same engine state, the same
`request_sent` and `peer_closed`, and the same outbound sequence (the buffers
written and the position of the application payload among them), whatever
events follow the stream. -/
theorem framing_independent_when_quiet {σ : Type} (v : Variant) (E : Engine σ) (host : String)
    (hE : feedSplitIndependent E) (cs1 cs2 : List (List Byte)) (rest : List Event)
    (h1 : ∀ ch ∈ cs1, ch ≠ []) (h2 : ∀ ch ∈ cs2, ch ≠ [])
    (hj : cs1.flatten = cs2.flatten)
    (hq1 : ∀ e, E.init.next = some e → quietSplit E e cs1)
    (hq2 : ∀ e, E.init.next = some e → quietSplit E e cs2) :
    (session v E host (reads cs1 ++ rest)).same (session v E host (reads cs2 ++ rest)) := by
  have hnil : ∀ cs : List (List Byte), (∀ ch ∈ cs, ch ≠ []) → cs.flatten = [] → cs = [] := by
    intro cs hcs hjn
    cases cs with
    | nil => rfl
    | cons ch cs3 =>
      simp only [List.flatten_cons] at hjn
      exact absurd (List.append_eq_nil.1 hjn).1 (hcs ch (List.mem_cons_self _ _))
  simp only [session]
  cases hi : E.init.next with
  | none => exact resultSame_refl _
  | some e =>
    simp only [drive_eq_finish]
    apply finish_same
    by_cases hc1 : cs1 = []
    · have hc2 : cs2 = [] := hnil cs2 h2 (by rw [← hj, hc1]; rfl)
      rw [hc1, hc2]
      exact loopEndSame_refl _
    · have hc2 : cs2 ≠ [] := by
        intro h
        apply hc1
        exact hnil cs1 h1 (by rw [hj, h]; rfl)
      have ha := split_as_one v E host hE rest cs1 (start E e) hc1 h1 (hq1 e hi)
      have hb := split_as_one v E host hE rest cs2 (start E e) hc2 h2 (hq2 e hi)
      rw [hj] at ha
      exact loopEndSame_trans ha (loopEndSame_symm hb)

/-- C8, as amended, on the sample engine that is active from its second byte on:
two bytes read one by one and read at once, followed by a timeout. -/
theorem framing_independent_when_quiet_witness :
    (session Variant.fixed (demo 2 9 false) "h" (reads [[1], [2]] ++ [Event.timeout])).same
      (session Variant.fixed (demo 2 9 false) "h" (reads [[1, 2]] ++ [Event.timeout])) :=
  framing_independent_when_quiet Variant.fixed (demo 2 9 false) "h"
    (demo_feedSplitIndependent 2 9 false) [[1], [2]] [[1, 2]] [Event.timeout]
    (by decide) (by decide) (by decide)
    (by intro e he; cases he; simp [quietSplit, demo])
    (by intro e he; simp [quietSplit])

/-- C8 as stated fails.  The sample engine's feed is split-independent.  When it
is active after the first byte and closed after the second, the stream
`[1, 2]` read at once ends with `request_sent` false and no payload sent, read
byte by byte it ends with `request_sent` true and the payload sent.  When it
is active after the first byte and stays open, the payload goes out after
both echoes in the first case and between them in the second. -/
theorem framing_changes_outcome :
    feedSplitIndependent (demo 1 2 false) ∧
      (session Variant.plain (demo 1 2 false) "h" (reads [[1, 2]])).request_sent = false ∧
      (session Variant.plain (demo 1 2 false) "h" (reads [[1], [2]])).request_sent = true ∧
      sendCount (session Variant.plain (demo 1 2 false) "h" (reads [[1, 2]])).log = 0 ∧
      sendCount (session Variant.plain (demo 1 2 false) "h" (reads [[1], [2]])).log = 1 ∧
      outbound (session Variant.fixed (demo 1 9 false) "h" (reads [[1, 2]])).log =
        [Act.emit [22], Act.emit [1], Act.emit [2],
          Act.send (http_request Variant.fixed "h"), Act.emit [23, 97]] ∧
      outbound (session Variant.fixed (demo 1 9 false) "h" (reads [[1], [2]])).log =
        [Act.emit [22], Act.emit [1],
          Act.send (http_request Variant.fixed "h"), Act.emit [23, 97], Act.emit [2]] :=
  ⟨demo_feedSplitIndependent 1 2 false, by decide, by decide, by decide, by decide,
    by decide, by decide⟩

/-! ### The two programs compared -/

@[simp] theorem engineCalls_nil : engineCalls [] = [] := rfl

@[simp] theorem engineCalls_append (l m : List Act) :
    engineCalls (l ++ m) = engineCalls l ++ engineCalls m := by
  induction l with
  | nil => rfl
  | cons a l ih => cases a <;> simp [engineCalls, ih]

@[simp] theorem engineCalls_emits (out : List (List Byte)) : engineCalls (emits out) = [] := by
  induction out with
  | nil => rfl
  | cons b out ih => simpa [emits, engineCalls] using ih

/-- One pass through the loop body does the same in both programs, as far as the
engine state, the flags and the engine calls go. -/
theorem body_alike {σ : Type} (E : Engine σ) (host : String) (hreq : sendIgnoresText E host)
    (ev : Event) (c d : Cfg σ) (h : c.alike d) :
    Flow.alike (timeoutsAfter d.timeout_count ev)
      (body Variant.plain E host ev c) (body Variant.fixed E host ev d) := by
  obtain ⟨e, rs, pc, tc, l1⟩ := c
  obtain ⟨e2, rs2, pc2, tc2, l2⟩ := d
  obtain ⟨h1, h2, h3, h5⟩ := h
  simp only at h1 h2 h3 h5
  subst h1 h2 h3
  have hreq2 := hreq
  simp only [sendIgnoresText] at hreq2
  simp only [body, deferred_send, do_send]
  (repeat' split) <;>
    simp_all [Flow.alike, Cfg.alike, timeoutsAfter, engineCalls]

theorem withinBudget_lt (k : Nat) (evs : List Event) (h : withinBudget k evs = true) :
    k < max_timeouts := by
  cases evs with
  | nil => simpa [withinBudget] using h
  | cons ev rest =>
    simp only [withinBudget, Bool.and_eq_true, decide_eq_true_eq] at h
    exact h.1

/-- On a script that never uses up the timeout budget, the loops of the two
programs end the same way in agreeing states. -/
theorem loop_alike {σ : Type} (E : Engine σ) (host : String) (hreq : sendIgnoresText E host) :
    ∀ (evs : List Event) (c d : Cfg σ), c.alike d →
      withinBudget d.timeout_count evs = true →
      LoopEnd.alike (loop Variant.plain E host evs c) (loop Variant.fixed E host evs d) := by
  intro evs
  induction evs with
  | nil =>
    intro c d h hb
    have hlt := withinBudget_lt _ _ hb
    simp only [loop, guard, h.1, hlt, decide_True, Bool.and_true]
    split <;> exact h
  | cons ev rest ih =>
    intro c d h hb
    have hlt := withinBudget_lt _ _ hb
    simp only [withinBudget, Bool.and_eq_true, decide_eq_true_eq] at hb
    have hstep := body_alike E host hreq ev c d h
    simp only [loop, guard, h.1, hlt, decide_True, Bool.and_true]
    split
    · cases hc : body Variant.plain E host ev c <;>
        cases hd : body Variant.fixed E host ev d <;>
        rw [hc, hd] at hstep <;> simp only [Flow.alike] at hstep
      · exact ih _ _ hstep.1 (by rw [hstep.2]; exact hb.2)
      · exact hstep
      · exact hstep
    · exact h

theorem finish_alike {σ : Type} (E : Engine σ) (r1 r2 : LoopEnd σ) (h : LoopEnd.alike r1 r2) :
    (finish E r1).alike (finish E r2) := by
  cases r1 <;> cases r2 <;> simp only [LoopEnd.alike] at h
  · obtain ⟨h1, h2, h3, h5⟩ := h
    simp only [finish, teardown, h1, h3]
    split <;> simp [Result.alike, h2, h3, h5, engineCalls]
  · obtain ⟨_, h2, h3, h5⟩ := h
    simp [finish, handler, Result.alike, h2, h3, h5, engineCalls]
  · obtain ⟨h1, h2, h3, h5⟩ := h
    simp [finish, Result.alike, h1, h2, h3, h5]

/-- A timeout pass with the engine active and the request not yet sent calls
`client.send` in both programs. -/
theorem body_timeout_sends {σ : Type} (v : Variant) (E : Engine σ) (host : String) (c : Cfg σ)
    (ha : E.is_active c.eng = true) (hs : c.request_sent = false) :
    sendCount (body v E host Event.timeout c).cfg.log = sendCount c.log + 1 := by
  cases v <;> simp only [body, deferred_send, do_send, ha, hs] <;>
    (repeat' split) <;> simp_all [Flow.cfg, Act.isSend]

/-- C11, as amended: the two programs agree on when the deferred-send check
fires.  A timeout pass with the engine active and the request not yet sent
calls `client.send` in either program (in `tls_client.cpp` the empty
`n == 0` branch falls through to the check).  On every script that holds
fewer than `max_timeouts` timeouts in a row, and with an engine that is
left in the same state by `send` for either request text, the two programs
end with the same exit code, engine state and flags and have issued the same
sequence of engine calls (`received_data`, `send`, `close`).  They part
only where the timeout budget runs out: after ten timeouts the fixed program
has left the loop and requested close, the other one reads on. -/
theorem variants_agree_within_budget :
    (∀ (σ : Type) (v : Variant) (E : Engine σ) (host : String) (c : Cfg σ),
      E.is_active c.eng = true → c.request_sent = false →
      sendCount (body v E host Event.timeout c).cfg.log = sendCount c.log + 1) ∧
    (∀ (σ : Type) (E : Engine σ) (host : String) (evs : List Event),
      sendIgnoresText E host → withinBudget 0 evs = true →
      (session Variant.plain E host evs).alike (session Variant.fixed E host evs)) ∧
    (engineCalls (session Variant.plain (demo 2 9 false) "h"
        (List.replicate 10 Event.timeout ++ [Event.readable (RecvRes.got [1])])).log =
        [EngCall.received_data [1]] ∧
      engineCalls (session Variant.fixed (demo 2 9 false) "h"
        (List.replicate 10 Event.timeout ++ [Event.readable (RecvRes.got [1])])).log =
        [EngCall.close]) := by
  refine ⟨?_, ?_, by decide, by decide⟩
  · intro σ v E host c ha hs
    exact body_timeout_sends v E host c ha hs
  · intro σ E host evs hreq hb
    simp only [session]
    cases hi : E.init.next with
    | none => simp [handler, Result.alike]
    | some e =>
      simp only [drive_eq_finish]
      apply finish_alike
      exact loop_alike E host hreq evs (start E e) (start E e) ⟨rfl, rfl, rfl, rfl⟩
        (by simpa [start] using hb)

/-- C11, as amended, on the sample engine that is active from its second byte
on: a byte, a timeout, a second byte and another timeout. -/
theorem variants_agree_within_budget_witness :
    (session Variant.plain (demo 2 9 false) "h"
        [Event.readable (RecvRes.got [1]), Event.timeout, Event.readable (RecvRes.got [2]),
          Event.timeout]).alike
      (session Variant.fixed (demo 2 9 false) "h"
        [Event.readable (RecvRes.got [1]), Event.timeout, Event.readable (RecvRes.got [2]),
          Event.timeout]) :=
  variants_agree_within_budget.2.1 DemoState (demo 2 9 false) "h"
    [Event.readable (RecvRes.got [1]), Event.timeout, Event.readable (RecvRes.got [2]),
      Event.timeout]
    (by intro s; rfl) (by decide)

/-- C11 as stated fails: no engine, host and loop state exist in which the engine
is active, the request is unsent, and a timeout pass calls `client.send` in
`tls_client_fixed.cpp` but not in `tls_client.cpp`.  On the sample engine
that is active from the start, a single timeout makes both programs send. -/
theorem timeout_tick_sends_in_both :
    (¬ ∃ (σ : Type) (E : Engine σ) (host : String) (c : Cfg σ),
      E.is_active c.eng = true ∧ c.request_sent = false ∧
      sendCount (body Variant.fixed E host Event.timeout c).cfg.log = sendCount c.log + 1 ∧
      sendCount (body Variant.plain E host Event.timeout c).cfg.log = sendCount c.log) ∧
    (session Variant.plain (demo 0 9 false) "h" [Event.timeout]).log =
      [Act.emit [22], Act.is_active true, Act.send (http_request Variant.plain "h"),
        Act.emit [23, 94]] ∧
    (session Variant.fixed (demo 0 9 false) "h" [Event.timeout]).log =
      [Act.emit [22], Act.is_active true, Act.send (http_request Variant.fixed "h"),
        Act.emit [23, 97]] := by
  refine ⟨?_, by decide, by decide⟩
  rintro ⟨σ, E, host, c, ha, hs, _, hp⟩
  have h := body_timeout_sends Variant.plain E host c ha hs
  omega

end TlsClient
